import Mathlib

/-!
Noctave: delay-line pitch shifter and harmonizer.

A shallow embedding of `Source/PluginProcessor.cpp` / `Source/PluginProcessor.h`.

Conventions of the embedding.

* `float` arithmetic is idealised as exact arithmetic in a linearly ordered field `α` with a
  floor function (`ℚ` for evaluation, `ℝ` for statements about the true `tanh` and `2^x`).
  Infinities and NaN are outside the model, and so is rounding, except in the binary32
  versions of the read-cursor update (`roundF32`, `wrapBelowF32`, `wrapAboveF32`,
  `readPositionF32`).
* `std::tanh` and `std::pow (2.0f, ·)` are not field operations; every function that calls them
  takes them as the arguments `tanh` and `exp2`.
* `juce::AudioBuffer<float>` with one channel is a `List α` of samples.  `getSample` and
  `setSample` with an index outside the buffer are undefined in the source (a debug `jassert`);
  here a read outside gives `0` and a write outside is dropped.
* The four `std::atomic<float>` parameters are passed to `processBlock` as one snapshot.
-/

namespace Noctave

set_option linter.unusedSectionVars false

variable {α : Type} [LinearOrderedField α] [FloorRing α]

/-! ## Primitives -/

/-- The function `juce::jlimit (lo, hi, v)`: `v < lo ? lo : (hi < v ? hi : v)`. -/
def jlimit (lo hi v : α) : α :=
  if v < lo then lo else if hi < v then hi else v

/-- The conversion `static_cast<int> (x)` of a float: truncation toward zero. -/
def truncToInt (x : α) : Int :=
  if 0 ≤ x then ⌊x⌋ else ⌈x⌉

/-- Sample read `buffer.getSample (0, i)`. -/
def getSample (buffer : List α) (i : Int) : α :=
  if 0 ≤ i then buffer.getD i.toNat 0 else 0

/-- Sample write `buffer.setSample (0, i, v)`. -/
def setSample (buffer : List α) (i : Int) (v : α) : List α :=
  if 0 ≤ i then buffer.set i.toNat v else buffer

/-- The constant `PitchShifter::maxDelaySamples` (`static constexpr int`, "1 second at 44.1kHz"). -/
def maxDelaySamples : Nat := 44100

/-- The tanh soft clipper written out twice in the source (`PitchShifter::processBlock` lines
123-131 with `threshold = 0.8f`, `NoctaveAudioProcessor::processBlock` lines 328-334 with the
literal `0.8f`). -/
def softClip (tanh : α → α) (threshold finalOutput : α) : α :=
  if |finalOutput| > threshold then
    let sign : α := if finalOutput > 0 then 1 else -1
    let absValue := |finalOutput|
    let excess := absValue - threshold
    sign * (threshold + (1 - threshold) * tanh (excess * 6))
  else finalOutput

/-! ## The read-cursor wrap loops -/

/-- The loop `while (voice.readPosition < 0.0f) voice.readPosition += maxDelaySamples;`,
computed without rounding (the termination measure relies on that); `wrapBelowF32` is the same
loop with binary32 rounding. -/
def wrapBelow {α : Type} [LinearOrderedField α] [FloorRing α] (readPosition : α) : α :=
  if readPosition < 0 then wrapBelow (readPosition + (maxDelaySamples : α)) else readPosition
termination_by Int.toNat ⌈-readPosition / (maxDelaySamples : α)⌉
decreasing_by
  rename_i h
  have hc : (0 : α) < (maxDelaySamples : α) := by norm_num [maxDelaySamples]
  have e : -(readPosition + (maxDelaySamples : α)) / (maxDelaySamples : α)
      = -readPosition / (maxDelaySamples : α) - 1 := by
    field_simp
    ring
  have hpos : 0 < ⌈-readPosition / (maxDelaySamples : α)⌉ :=
    Int.ceil_pos.mpr (div_pos (neg_pos.mpr h) hc)
  rw [e, Int.ceil_sub_one]
  omega

/-- The loop `while (voice.readPosition >= maxDelaySamples) voice.readPosition -=
maxDelaySamples;`, computed without rounding (the termination measure relies on that);
`wrapAboveF32` is the same loop with binary32 rounding. -/
def wrapAbove {α : Type} [LinearOrderedField α] [FloorRing α] (readPosition : α) : α :=
  if (maxDelaySamples : α) ≤ readPosition then wrapAbove (readPosition - (maxDelaySamples : α))
  else readPosition
termination_by Int.toNat ⌊readPosition / (maxDelaySamples : α)⌋
decreasing_by
  rename_i h
  have hc : (0 : α) < (maxDelaySamples : α) := by norm_num [maxDelaySamples]
  have e : (readPosition - (maxDelaySamples : α)) / (maxDelaySamples : α)
      = readPosition / (maxDelaySamples : α) - 1 := by
    field_simp
  have hpos : 0 < ⌊readPosition / (maxDelaySamples : α)⌋ :=
    Int.floor_pos.mpr ((one_le_div hc).mpr h)
  rw [e, Int.floor_sub_one]
  omega

/-! ## PitchShifter -/

/-- The struct `PitchShifter::Voice`. -/
structure Voice (α : Type) where
  delayBuffer : List α
  writePosition : α
  readPosition : α

/-- The class `NoctaveAudioProcessor::PitchShifter`; `voices` is the one-element array
`Voice voices[1]`, of which only `voices[0]` exists. -/
structure PitchShifter (α : Type) where
  voices : Voice α
  currentSampleRate : α
  smoothedPitchShift : α

/-- The constructor `PitchShifter::PitchShifter()` together with the default member
initialisers of the header. -/
def PitchShifter.new : PitchShifter α where
  voices :=
    { delayBuffer := List.replicate maxDelaySamples 0
      writePosition := 0
      readPosition := 0 }
  currentSampleRate := 44100
  smoothedPitchShift := 0

/-- The method `PitchShifter::prepare (sampleRate, maxBlockSize)`. -/
def PitchShifter.prepare (_ps : PitchShifter α) (sampleRate : α) (_maxBlockSize : Int) :
    PitchShifter α :=
  { voices :=
      { delayBuffer := List.replicate maxDelaySamples 0
        writePosition := (maxDelaySamples : α) * 0.5
        readPosition := (maxDelaySamples : α) * 0.5 }
    currentSampleRate := sampleRate
    smoothedPitchShift := 0 }

/-- The method `PitchShifter::reset ()`: `clear ()` zero-fills the buffer without resizing. -/
def PitchShifter.reset (ps : PitchShifter α) : PitchShifter α :=
  { ps with
    voices :=
      { delayBuffer := List.replicate ps.voices.delayBuffer.length 0
        writePosition := (maxDelaySamples : α) * 0.5
        readPosition := (maxDelaySamples : α) * 0.5 } }

/-- The interpolated read of lines 85-91, at an already wrapped `readPosition`. -/
def readDelayed (delayBuffer : List α) (readPosition : α) : α :=
  let readPosInt : Int := truncToInt readPosition
  let frac : α := readPosition - (readPosInt : α)
  let readPosNext : Int := (readPosInt + 1).tmod (maxDelaySamples : Int)
  let sample1 := getSample delayBuffer readPosInt
  let sample2 := getSample delayBuffer readPosNext
  sample1 + frac * (sample2 - sample1)

/-- The stages of lines 113-134 that turn the clamped `input` and the clamped delay read
`output` into the sample written to the block. -/
def mixOutput (tanh : α → α) (mix input output : α) : α :=
  let mixReduction : α := 1 - mix * 0.15
  let wetGain : α := mix * 0.85 * mixReduction
  let dryGain : α := (1 - mix) * 0.9
  let finalOutput : α := input * dryGain + output * wetGain
  let finalOutput := softClip tanh 0.8 finalOutput
  jlimit (-0.9) 0.9 finalOutput

/-- One iteration of the sample loop of `PitchShifter::processBlock` (lines 63-136): the new
voice and the sample stored into the block.  `feedback` is the already clamped value. -/
def processSample (tanh : α → α) (pitchRatio mix feedback : α) (voice : Voice α) (input : α) :
    Voice α × α :=
  let input := jlimit (-0.9) 0.9 input
  let readPosition := voice.readPosition - pitchRatio
  let readPosition := wrapBelow readPosition
  let readPosition := wrapAbove readPosition
  let delayed := readDelayed voice.delayBuffer readPosition
  let output := jlimit (-0.85) 0.85 delayed
  let feedbackContribution := output * feedback * 0.75
  let delayInput := jlimit (-0.85) 0.85 (input + feedbackContribution)
  let writePosInt : Int := truncToInt voice.writePosition
  let delayBuffer := setSample voice.delayBuffer writePosInt delayInput
  let writePosition := voice.writePosition + 1
  let writePosition :=
    if (maxDelaySamples : α) ≤ writePosition then writePosition - (maxDelaySamples : α)
    else writePosition
  ({ delayBuffer := delayBuffer, writePosition := writePosition, readPosition := readPosition },
    mixOutput tanh mix input output)

/-- The sample loop `for (int sample = 0; sample < buffer.getNumSamples (); ++sample)`. -/
def processSamples (tanh : α → α) (pitchRatio mix feedback : α) :
    Voice α → List α → Voice α × List α
  | voice, [] => (voice, [])
  | voice, input :: rest =>
    let r := processSample tanh pitchRatio mix feedback voice input
    let rs := processSamples tanh pitchRatio mix feedback r.1 rest
    (rs.1, r.2 :: rs.2)

/-- The method `PitchShifter::processBlock (buffer, pitchShiftSemitones, mix, feedback)`:
the new state and the samples left in `buffer`. -/
def PitchShifter.processBlock (tanh exp2 : α → α) (ps : PitchShifter α) (buffer : List α)
    (pitchShiftSemitones mix feedback : α) : PitchShifter α × List α :=
  if buffer.length = 0 then (ps, buffer)
  else
    let smoothingFactor : α := 0.995
    let smoothedPitchShift :=
      ps.smoothedPitchShift * smoothingFactor + pitchShiftSemitones * (1 - smoothingFactor)
    let pitchRatio := exp2 (smoothedPitchShift / 12)
    let feedback := jlimit 0 0.5 feedback
    let r := processSamples tanh pitchRatio mix feedback ps.voices buffer
    ({ ps with voices := r.1, smoothedPitchShift := smoothedPitchShift }, r.2)

/-! ## NoctaveAudioProcessor -/

/-- The members `pitchShifters[2]`, `harmonizers[2]` and `currentSampleRate` of
`NoctaveAudioProcessor`; a two-element array is a pair. -/
structure NoctaveAudioProcessor (α : Type) where
  pitchShifters : PitchShifter α × PitchShifter α
  harmonizers : PitchShifter α × PitchShifter α
  currentSampleRate : α

/-- The voices of a freshly constructed `NoctaveAudioProcessor` (default member initialisers). -/
def NoctaveAudioProcessor.new : NoctaveAudioProcessor α where
  pitchShifters := (PitchShifter.new, PitchShifter.new)
  harmonizers := (PitchShifter.new, PitchShifter.new)
  currentSampleRate := 44100

/-- Element `arr[channel]` of a two-element array (`channel < 2` at every use). -/
def getAt {β : Type} (arr : β × β) (channel : Nat) : β :=
  if channel = 0 then arr.1 else arr.2

/-- Assignment to `arr[channel]` of a two-element array. -/
def setAt {β : Type} (arr : β × β) (channel : Nat) (v : β) : β × β :=
  if channel = 0 then (v, arr.2) else (arr.1, v)

/-- The method `NoctaveAudioProcessor::prepareToPlay (sampleRate, samplesPerBlock)`. -/
def NoctaveAudioProcessor.prepareToPlay (p : NoctaveAudioProcessor α) (sampleRate : α)
    (samplesPerBlock : Int) : NoctaveAudioProcessor α :=
  { pitchShifters :=
      (p.pitchShifters.1.prepare sampleRate samplesPerBlock,
        p.pitchShifters.2.prepare sampleRate samplesPerBlock)
    harmonizers :=
      (p.harmonizers.1.prepare sampleRate samplesPerBlock,
        p.harmonizers.2.prepare sampleRate samplesPerBlock)
    currentSampleRate := sampleRate }

/-- The method `NoctaveAudioProcessor::releaseResources ()`. -/
def NoctaveAudioProcessor.releaseResources (p : NoctaveAudioProcessor α) :
    NoctaveAudioProcessor α :=
  { p with
    pitchShifters := (p.pitchShifters.1.reset, p.pitchShifters.2.reset)
    harmonizers := (p.harmonizers.1.reset, p.harmonizers.2.reset) }

/-- The body of the harmonizer mixing loop (lines 314-338) for one sample; `mixLevel` is the
value of `mixParam->load ()`. -/
def harmonyMix (tanh : α → α) (mixLevel mainSample harmonySample : α) : α :=
  let mainSample := jlimit (-0.85) 0.85 mainSample
  let harmonySample := jlimit (-0.85) 0.85 harmonySample
  let mixScale : α := 1 - mixLevel * 0.1
  let mixed : α := (mainSample * 0.6 + harmonySample * 0.4) * mixScale
  let mixed := softClip tanh 0.8 mixed
  jlimit (-0.9) 0.9 mixed

/-- The body of the channel loop (lines 291-340) on the samples of one channel: the new shift
voice, the new harmony voice and the samples copied back to the channel. -/
def processChannel (tanh exp2 : α → α) (shifter harmonizer : PitchShifter α)
    (channelSamples : List α) (pitchShift mix feedback harmonizerInterval : α) :
    PitchShifter α × PitchShifter α × List α :=
  let singleChannelBuffer := channelSamples
  let originalBuffer := channelSamples
  let main := shifter.processBlock tanh exp2 singleChannelBuffer pitchShift mix feedback
  if |harmonizerInterval| > 0.1 then
    let harmonizerBuffer := originalBuffer
    let harmony := harmonizer.processBlock tanh exp2 harmonizerBuffer harmonizerInterval 1 0
    (main.1, harmony.1, List.zipWith (harmonyMix tanh mix) main.2 harmony.2)
  else (main.1, harmonizer, main.2)

/-- One iteration of the channel loop of `NoctaveAudioProcessor::processBlock`, lines 289-344. -/
def channelStep (tanh exp2 : α → α) (pitchShift mix feedback harmonizerInterval : α)
    (st : NoctaveAudioProcessor α × List (List α)) (channel : Nat) :
    NoctaveAudioProcessor α × List (List α) :=
  let r := processChannel tanh exp2 (getAt st.1.pitchShifters channel)
    (getAt st.1.harmonizers channel) (st.2.getD channel []) pitchShift mix feedback
    harmonizerInterval
  ({ st.1 with
      pitchShifters := setAt st.1.pitchShifters channel r.1
      harmonizers := setAt st.1.harmonizers channel r.2.1 },
    st.2.set channel r.2.2)

/-- The loop "Clear unused output channels" (lines 279-280). -/
def clearUnusedChannels (totalNumInputChannels totalNumOutputChannels : Nat)
    (buffer : List (List α)) : List (List α) :=
  (List.range' totalNumInputChannels (totalNumOutputChannels - totalNumInputChannels)).foldl
    (fun b i => b.set i (List.replicate (b.getD i []).length 0)) buffer

/-- The method `NoctaveAudioProcessor::processBlock`; `buffer` is the list of channels, the four
parameter values are those loaded from the atomics, and the channel counts are those of the bus
layout. -/
def NoctaveAudioProcessor.processBlock (tanh exp2 : α → α) (p : NoctaveAudioProcessor α)
    (totalNumInputChannels totalNumOutputChannels : Nat) (buffer : List (List α))
    (pitchShift mix feedback harmonizerInterval : α) :
    NoctaveAudioProcessor α × List (List α) :=
  let buffer := clearUnusedChannels totalNumInputChannels totalNumOutputChannels buffer
  (List.range (min totalNumInputChannels 2)).foldl
    (channelStep tanh exp2 pitchShift mix feedback harmonizerInterval) (p, buffer)

/-! ## Predicates and evaluation stand-ins -/

/-- Every sample of a block lies in `[lo, hi]`. -/
def allWithin (lo hi : α) (block : List α) : Prop :=
  ∀ y ∈ block, lo ≤ y ∧ y ≤ hi

/-- Both cursors of a voice are in `[0, maxDelaySamples)`. -/
def Voice.cursorsInRange (voice : Voice α) : Prop :=
  0 ≤ voice.readPosition ∧ voice.readPosition < (maxDelaySamples : α) ∧
    0 ≤ voice.writePosition ∧ voice.writePosition < (maxDelaySamples : α)

/-- A run of `PitchShifter::processBlock` over a sequence of calls, each call given as
`(buffer, pitchShiftSemitones, mix, feedback)`. -/
def PitchShifter.runBlocks (tanh exp2 : α → α) (ps : PitchShifter α)
    (calls : List (List α × α × α × α)) : PitchShifter α :=
  calls.foldl (fun s c => (s.processBlock tanh exp2 c.1 c.2.1 c.2.2.1 c.2.2.2).1) ps

/-- The delay line of a voice holds only zeros. -/
def PitchShifter.silent (ps : PitchShifter α) : Prop :=
  ∃ m : Nat, ps.voices.delayBuffer = List.replicate m 0

/-- All four delay lines of the processor hold only zeros. -/
def NoctaveAudioProcessor.silent (p : NoctaveAudioProcessor α) : Prop :=
  p.pitchShifters.1.silent ∧ p.pitchShifters.2.silent ∧
    p.harmonizers.1.silent ∧ p.harmonizers.2.silent

/-- The value `x mod capacity` of a real `x`: its representative in `[0, maxDelaySamples)`. -/
def modCapacity (x : α) : α :=
  x - (maxDelaySamples : α) * ⌊x / (maxDelaySamples : α)⌋

/-- The largest magnitude stored in a delay line (0 for an empty line). -/
def peakMagnitude (delayBuffer : List α) : α :=
  delayBuffer.foldr (fun x m => max |x| m) 0

/-- The values of `juce::AudioChannelSet` that `isBusesLayoutSupported` tells apart:
`disabled ()`, `mono ()`, `stereo ()`, and any other set, kept by its number of channels. -/
inductive AudioChannelSet where
  | disabled
  | mono
  | stereo
  | other (numChannels : Nat)
  deriving DecidableEq

/-- The number of channels of a channel set (`AudioChannelSet::size ()`). -/
def AudioChannelSet.size : AudioChannelSet → Nat
  | AudioChannelSet.disabled => 0
  | AudioChannelSet.mono => 1
  | AudioChannelSet.stereo => 2
  | AudioChannelSet.other numChannels => numChannels

/-- The method `NoctaveAudioProcessor::isBusesLayoutSupported` on the main input and output
channel sets of a layout.  The build flags `JucePlugin_IsMidiEffect` and `JucePlugin_IsSynth`
are set outside the source files and are taken as arguments. -/
def isBusesLayoutSupported (isMidiEffect isSynth : Bool)
    (mainInput mainOutput : AudioChannelSet) : Bool :=
  if isMidiEffect then true
  else if mainOutput ≠ AudioChannelSet.mono ∧ mainOutput ≠ AudioChannelSet.stereo then false
  else if isSynth = false ∧ mainOutput ≠ mainInput then false
  else true

/-! ## Float32 rounding for the wrap loops

The definitions above compute in exact arithmetic.  The three definitions below repeat the
read-cursor update with every `float` operation rounded to IEEE 754 binary32 (round to
nearest, ties to even), to state where the exact computation stops describing the source. -/

/-- A rational stand-in for `std::tanh` (odd, increasing, `|tanhQ x| < 1`), used only to
evaluate the model on concrete rational inputs. -/
def tanhQ (x : ℚ) : ℚ := x / (1 + |x|)

/-- A rational stand-in for `std::pow (2.0f, x)` (exact at integers, linear in between), used
only to evaluate the model on concrete rational inputs. -/
def exp2Q (x : ℚ) : ℚ := (2 : ℚ) ^ ⌊x⌋ * (1 + Int.fract x)

/-! ## Basic facts -/

section Basic

variable {α : Type} [LinearOrderedField α]

theorem maxDelaySamples_pos : (0 : α) < (maxDelaySamples : α) := by
  norm_num [maxDelaySamples]

theorem midpoint_cursors (buffer : List α) :
    (Voice.mk buffer ((maxDelaySamples : α) * 0.5) ((maxDelaySamples : α) * 0.5)).cursorsInRange := by
  have hc : (0 : α) < (maxDelaySamples : α) := maxDelaySamples_pos
  unfold Voice.cursorsInRange
  simp only
  refine ⟨?_, ?_, ?_, ?_⟩ <;> linarith

theorem jlimit_ge {lo hi : α} (h : lo ≤ hi) (v : α) : lo ≤ jlimit lo hi v := by
  unfold jlimit
  split_ifs with h1 h2
  · exact le_refl lo
  · exact h
  · exact not_lt.mp h1

theorem jlimit_le {lo hi : α} (h : lo ≤ hi) (v : α) : jlimit lo hi v ≤ hi := by
  unfold jlimit
  split_ifs with h1 h2
  · exact h
  · exact le_refl hi
  · exact not_lt.mp h2

theorem jlimit_eq_self {lo hi v : α} (h1 : lo ≤ v) (h2 : v ≤ hi) : jlimit lo hi v = v := by
  unfold jlimit
  rw [if_neg (not_lt.mpr h1), if_neg (not_lt.mpr h2)]

theorem jlimit_idem {lo hi : α} (h : lo ≤ hi) (v : α) :
    jlimit lo hi (jlimit lo hi v) = jlimit lo hi v :=
  jlimit_eq_self (jlimit_ge h v) (jlimit_le h v)

theorem jlimit_zero {lo hi : α} (h1 : lo ≤ 0) (h2 : 0 ≤ hi) : jlimit lo hi 0 = 0 :=
  jlimit_eq_self h1 h2

theorem softClip_eq_self (tanh : α → α) {threshold x : α} (h : |x| ≤ threshold) :
    softClip tanh threshold x = x := by
  unfold softClip
  rw [if_neg (not_lt.mpr h)]

theorem mixOutput_within (tanh : α → α) (mix input output : α) :
    -0.9 ≤ mixOutput tanh mix input output ∧ mixOutput tanh mix input output ≤ 0.9 := by
  unfold mixOutput
  exact ⟨jlimit_ge (by norm_num) _, jlimit_le (by norm_num) _⟩

theorem harmonyMix_within (tanh : α → α) (mixLevel a b : α) :
    -0.9 ≤ harmonyMix tanh mixLevel a b ∧ harmonyMix tanh mixLevel a b ≤ 0.9 := by
  unfold harmonyMix
  exact ⟨jlimit_ge (by norm_num) _, jlimit_le (by norm_num) _⟩

theorem allWithin_nil (lo hi : α) : allWithin lo hi [] := by
  intro y hy
  cases hy

theorem allWithin_cons {lo hi x : α} {xs : List α} (hx : lo ≤ x ∧ x ≤ hi)
    (hxs : allWithin lo hi xs) : allWithin lo hi (x :: xs) := by
  intro y hy
  rcases List.mem_cons.mp hy with rfl | h
  · exact hx
  · exact hxs y h

theorem allWithin_zipWith {lo hi : α} (f : α → α → α) (hf : ∀ a b, lo ≤ f a b ∧ f a b ≤ hi) :
    ∀ xs ys : List α, allWithin lo hi (List.zipWith f xs ys)
  | [], _ => by simpa using allWithin_nil lo hi
  | _ :: _, [] => by simpa using allWithin_nil lo hi
  | x :: xs, y :: ys => by
    simpa using allWithin_cons (hf x y) (allWithin_zipWith f hf xs ys)

end Basic

section Blocks

variable {α : Type} [LinearOrderedField α] [FloorRing α]

theorem processSamples_within (tanh : α → α) (pitchRatio mix feedback : α) :
    ∀ (buffer : List α) (voice : Voice α),
      allWithin (-0.9) 0.9 (processSamples tanh pitchRatio mix feedback voice buffer).2
  | [], _ => allWithin_nil _ _
  | x :: xs, voice => by
    simp only [processSamples]
    exact allWithin_cons (mixOutput_within tanh _ _ _)
      (processSamples_within tanh pitchRatio mix feedback xs _)

theorem processSamples_length (tanh : α → α) (pitchRatio mix feedback : α) :
    ∀ (buffer : List α) (voice : Voice α),
      (processSamples tanh pitchRatio mix feedback voice buffer).2.length = buffer.length
  | [], _ => rfl
  | x :: xs, voice => by
    simp only [processSamples, List.length_cons]
    rw [processSamples_length tanh pitchRatio mix feedback xs]

theorem PitchShifter.processBlock_within (tanh exp2 : α → α) (ps : PitchShifter α)
    (buffer : List α) (pitchShiftSemitones mix feedback : α) :
    allWithin (-0.9) 0.9
      (ps.processBlock tanh exp2 buffer pitchShiftSemitones mix feedback).2 := by
  unfold PitchShifter.processBlock
  split_ifs with h
  · rw [List.length_eq_zero.mp h]
    exact allWithin_nil _ _
  · exact processSamples_within tanh _ _ _ _ _

theorem PitchShifter.processBlock_length (tanh exp2 : α → α) (ps : PitchShifter α)
    (buffer : List α) (pitchShiftSemitones mix feedback : α) :
    (ps.processBlock tanh exp2 buffer pitchShiftSemitones mix feedback).2.length
      = buffer.length := by
  unfold PitchShifter.processBlock
  split_ifs with h
  · rfl
  · exact processSamples_length tanh _ _ _ _ _

theorem processChannel_within (tanh exp2 : α → α) (shifter harmonizer : PitchShifter α)
    (channelSamples : List α) (pitchShift mix feedback harmonizerInterval : α) :
    allWithin (-0.9) 0.9
      (processChannel tanh exp2 shifter harmonizer channelSamples pitchShift mix feedback
        harmonizerInterval).2.2 := by
  unfold processChannel
  split_ifs with h
  · exact allWithin_zipWith _ (harmonyMix_within tanh mix) _ _
  · exact PitchShifter.processBlock_within tanh exp2 _ _ _ _ _

theorem channelStep_getD_self (tanh exp2 : α → α) (pitchShift mix feedback h : α)
    (st : NoctaveAudioProcessor α × List (List α)) (c : Nat) :
    allWithin (-0.9) 0.9 ((channelStep tanh exp2 pitchShift mix feedback h st c).2.getD c []) := by
  unfold channelStep
  by_cases hc : c < st.2.length
  · simp only [List.getD_eq_getElem?_getD, List.getElem?_set_self hc, Option.getD_some]
    exact processChannel_within tanh exp2 _ _ _ _ _ _ _
  · simp only [List.getD_eq_getElem?_getD]
    rw [List.getElem?_eq_none (by simpa using hc)]
    exact allWithin_nil _ _

theorem channelStep_getD_other (tanh exp2 : α → α) (pitchShift mix feedback h : α)
    (st : NoctaveAudioProcessor α × List (List α)) {c d : Nat} (hne : c ≠ d) :
    (channelStep tanh exp2 pitchShift mix feedback h st c).2.getD d [] = st.2.getD d [] := by
  unfold channelStep
  simp only [List.getD_eq_getElem?_getD, List.getElem?_set_ne hne]

theorem processBlock_eq_of_min (tanh exp2 : α → α) (p : NoctaveAudioProcessor α)
    (nIn nOut : Nat) (buffer : List (List α)) (pitchShift mix feedback h : α) :
    (min nIn 2 = 0 ∧ p.processBlock tanh exp2 nIn nOut buffer pitchShift mix feedback h
        = (p, clearUnusedChannels nIn nOut buffer)) ∨
    (min nIn 2 = 1 ∧ p.processBlock tanh exp2 nIn nOut buffer pitchShift mix feedback h
        = channelStep tanh exp2 pitchShift mix feedback h
            (p, clearUnusedChannels nIn nOut buffer) 0) ∨
    (min nIn 2 = 2 ∧ p.processBlock tanh exp2 nIn nOut buffer pitchShift mix feedback h
        = channelStep tanh exp2 pitchShift mix feedback h
            (channelStep tanh exp2 pitchShift mix feedback h
              (p, clearUnusedChannels nIn nOut buffer) 0) 1) := by
  unfold NoctaveAudioProcessor.processBlock
  have hm : min nIn 2 = 0 ∨ min nIn 2 = 1 ∨ min nIn 2 = 2 := by omega
  rcases hm with hm | hm | hm
  · left
    rw [hm]
    exact ⟨rfl, rfl⟩
  · right
    left
    rw [hm]
    exact ⟨rfl, rfl⟩
  · right
    right
    rw [hm]
    exact ⟨rfl, rfl⟩

end Blocks

/-! ## Cursor facts -/

section Cursors

variable {α : Type} [LinearOrderedField α] [FloorRing α]

theorem wrapBelow_nonneg (r : α) : 0 ≤ wrapBelow r := by
  induction r using wrapBelow.induct with
  | case1 r h ih =>
    rw [wrapBelow, if_pos h]
    exact ih
  | case2 r h =>
    rw [wrapBelow, if_neg h]
    exact not_lt.mp h

theorem wrapAbove_lt (r : α) : wrapAbove r < (maxDelaySamples : α) := by
  induction r using wrapAbove.induct with
  | case1 r h ih =>
    rw [wrapAbove, if_pos h]
    exact ih
  | case2 r h =>
    rw [wrapAbove, if_neg h]
    exact not_le.mp h

theorem wrapAbove_nonneg (r : α) (hr : 0 ≤ r) : 0 ≤ wrapAbove r := by
  induction r using wrapAbove.induct with
  | case1 r h ih =>
    rw [wrapAbove, if_pos h]
    exact ih (by linarith)
  | case2 r h =>
    rw [wrapAbove, if_neg h]
    exact hr

theorem processSample_readPosition (tanh : α → α) (pitchRatio mix feedback : α)
    (voice : Voice α) (input : α) :
    (processSample tanh pitchRatio mix feedback voice input).1.readPosition
      = wrapAbove (wrapBelow (voice.readPosition - pitchRatio)) := rfl

theorem processSample_writePosition (tanh : α → α) (pitchRatio mix feedback : α)
    (voice : Voice α) (input : α) :
    (processSample tanh pitchRatio mix feedback voice input).1.writePosition
      = if (maxDelaySamples : α) ≤ voice.writePosition + 1
        then voice.writePosition + 1 - (maxDelaySamples : α) else voice.writePosition + 1 := rfl

theorem processSample_cursors (tanh : α → α) (pitchRatio mix feedback : α) (voice : Voice α)
    (input : α) (hv : voice.cursorsInRange) :
    (processSample tanh pitchRatio mix feedback voice input).1.cursorsInRange := by
  obtain ⟨_, _, hw0, hw1⟩ := hv
  refine ⟨?_, ?_, ?_, ?_⟩
  · rw [processSample_readPosition]
    exact wrapAbove_nonneg _ (wrapBelow_nonneg _)
  · rw [processSample_readPosition]
    exact wrapAbove_lt _
  · rw [processSample_writePosition]
    split_ifs with h <;> linarith
  · rw [processSample_writePosition]
    split_ifs with h
    · have hc : (0 : α) < (maxDelaySamples : α) := maxDelaySamples_pos
      have h1 : (1 : α) ≤ (maxDelaySamples : α) := by norm_num [maxDelaySamples]
      linarith
    · exact not_le.mp h

theorem processSamples_cursors (tanh : α → α) (pitchRatio mix feedback : α) :
    ∀ (buffer : List α) (voice : Voice α), voice.cursorsInRange →
      (processSamples tanh pitchRatio mix feedback voice buffer).1.cursorsInRange
  | [], _, hv => hv
  | x :: xs, voice, hv => by
    simp only [processSamples]
    exact processSamples_cursors tanh pitchRatio mix feedback xs _
      (processSample_cursors tanh pitchRatio mix feedback voice x hv)

theorem processSamples_append (tanh : α → α) (pitchRatio mix feedback : α) :
    ∀ (xs ys : List α) (voice : Voice α),
      processSamples tanh pitchRatio mix feedback voice (xs ++ ys)
        = ((processSamples tanh pitchRatio mix feedback
              (processSamples tanh pitchRatio mix feedback voice xs).1 ys).1,
            (processSamples tanh pitchRatio mix feedback voice xs).2 ++
              (processSamples tanh pitchRatio mix feedback
                (processSamples tanh pitchRatio mix feedback voice xs).1 ys).2)
  | [], _, _ => rfl
  | x :: xs, ys, voice => by
    have ih := processSamples_append tanh pitchRatio mix feedback xs ys
      (processSample tanh pitchRatio mix feedback voice x).1
    rw [List.cons_append]
    simp only [processSamples, ih, List.cons_append]

theorem PitchShifter.processBlock_cursors (tanh exp2 : α → α) (ps : PitchShifter α)
    (buffer : List α) (pitchShiftSemitones mix feedback : α) (hv : ps.voices.cursorsInRange) :
    (ps.processBlock tanh exp2 buffer pitchShiftSemitones mix feedback).1.voices.cursorsInRange := by
  unfold PitchShifter.processBlock
  split_ifs with h
  · exact hv
  · exact processSamples_cursors tanh _ _ _ _ _ hv

theorem PitchShifter.runBlocks_cursors (tanh exp2 : α → α) :
    ∀ (calls : List (List α × α × α × α)) (ps : PitchShifter α), ps.voices.cursorsInRange →
      (ps.runBlocks tanh exp2 calls).voices.cursorsInRange
  | [], _, hv => hv
  | c :: cs, ps, hv => by
    simp only [PitchShifter.runBlocks, List.foldl_cons]
    exact PitchShifter.runBlocks_cursors tanh exp2 cs _
      (PitchShifter.processBlock_cursors tanh exp2 ps _ _ _ _ hv)

end Cursors

/-! ## Harmonizer gate -/

section Gate

variable {α : Type} [LinearOrderedField α] [FloorRing α]

theorem processChannel_active (tanh exp2 : α → α) (shifter harmonizer : PitchShifter α)
    (channelSamples : List α) (pitchShift mix feedback h : α) (hh : 0.1 < |h|) :
    processChannel tanh exp2 shifter harmonizer channelSamples pitchShift mix feedback h
      = ((shifter.processBlock tanh exp2 channelSamples pitchShift mix feedback).1,
          (harmonizer.processBlock tanh exp2 channelSamples h 1 0).1,
          List.zipWith (harmonyMix tanh mix)
            (shifter.processBlock tanh exp2 channelSamples pitchShift mix feedback).2
            (harmonizer.processBlock tanh exp2 channelSamples h 1 0).2) := by
  unfold processChannel
  rw [if_pos hh]

end Gate

/-! ## Dry/wet mix -/

section Mix

variable {α : Type} [LinearOrderedField α]

theorem jlimit_gt {lo hi c v : α} (h1 : c < v) (h2 : c < hi) : c < jlimit lo hi v := by
  unfold jlimit
  split_ifs with h3
  · exact lt_trans h1 h3
  · exact h2
  · exact h1

theorem jlimit_eq_of_abs_le {b v : α} (h : |v| ≤ b) : jlimit (-b) b v = v :=
  jlimit_eq_self (abs_le.mp h).1 (abs_le.mp h).2

theorem jlimit_abs_le {b : α} (hb : 0 ≤ b) (v : α) : |jlimit (-b) b v| ≤ b :=
  abs_le.mpr ⟨jlimit_ge (by linarith) v, jlimit_le (by linarith) v⟩

theorem mixOutput_mix_zero (tanh : α → α) (input output : α) :
    mixOutput tanh 0 input output = jlimit (-0.9) 0.9 (softClip tanh 0.8 (input * 0.9)) := by
  unfold mixOutput
  simp only [zero_mul, mul_zero, sub_zero, one_mul, add_zero]

theorem mixOutput_mix_zero_below_knee (tanh : α → α) {input : α} (output : α)
    (h : 0.9 * |input| ≤ 0.8) : mixOutput tanh 0 input output = 0.9 * input := by
  have h9 : |input * 0.9| ≤ 0.8 := by
    rw [abs_mul, abs_of_nonneg (by norm_num : (0 : α) ≤ 0.9)]
    linarith
  rw [mixOutput_mix_zero, softClip_eq_self tanh h9,
    jlimit_eq_of_abs_le (le_trans h9 (by norm_num)), mul_comm]

end Mix

section MixBlocks

variable {α : Type} [LinearOrderedField α] [FloorRing α]

theorem processSample_out (tanh : α → α) (pitchRatio mix feedback : α)
    (voice : Voice α) (input : α) :
    (processSample tanh pitchRatio mix feedback voice input).2
      = mixOutput tanh mix (jlimit (-0.9) 0.9 input)
          (jlimit (-0.85) 0.85 (readDelayed voice.delayBuffer
            (wrapAbove (wrapBelow (voice.readPosition - pitchRatio))))) := rfl

theorem PitchShifter.processBlock_cons (tanh exp2 : α → α) (ps : PitchShifter α) (x : α)
    (xs : List α) (pitchShiftSemitones mix feedback : α) :
    ps.processBlock tanh exp2 (x :: xs) pitchShiftSemitones mix feedback
      = ({ ps with
            voices := (processSamples tanh
              (exp2 ((ps.smoothedPitchShift * 0.995 + pitchShiftSemitones * (1 - 0.995)) / 12))
              mix (jlimit 0 0.5 feedback) ps.voices (x :: xs)).1
            smoothedPitchShift :=
              ps.smoothedPitchShift * 0.995 + pitchShiftSemitones * (1 - 0.995) },
          (processSamples tanh
              (exp2 ((ps.smoothedPitchShift * 0.995 + pitchShiftSemitones * (1 - 0.995)) / 12))
              mix (jlimit 0 0.5 feedback) ps.voices (x :: xs)).2) := by
  unfold PitchShifter.processBlock
  rw [if_neg (by simp)]

theorem PitchShifter.processBlock_nil (tanh exp2 : α → α) (ps : PitchShifter α)
    (pitchShiftSemitones mix feedback : α) :
    ps.processBlock tanh exp2 [] pitchShiftSemitones mix feedback = (ps, []) := rfl

theorem processSamples_mix_zero (tanh : α → α) (pitchRatio feedback : α) :
    ∀ (block : List α) (voice : Voice α), (∀ x ∈ block, 0.9 * |x| ≤ 0.8) →
      (processSamples tanh pitchRatio 0 feedback voice block).2
        = block.map (fun x => 0.9 * x)
  | [], _, _ => rfl
  | x :: xs, voice, h => by
    have hx : 0.9 * |x| ≤ 0.8 := h x (List.mem_cons_self x xs)
    have hx9 : |x| ≤ 0.9 := by linarith
    simp only [processSamples, List.map_cons]
    rw [processSamples_mix_zero tanh pitchRatio feedback xs _
        (fun y hy => h y (List.mem_cons_of_mem x hy)),
      processSample_out, jlimit_eq_of_abs_le hx9, mixOutput_mix_zero_below_knee tanh _ hx]

end MixBlocks

theorem real_tanh_gt : (1 / 20 : ℝ) < Real.tanh (3 / 50) := by
  have h1 : (3 / 50 : ℝ) + 1 ≤ Real.exp (3 / 50) := Real.add_one_le_exp _
  have hpos : (0 : ℝ) < Real.exp (3 / 50) := Real.exp_pos _
  have h2 : Real.exp (-(3 / 50 : ℝ)) ≤ 50 / 53 := by
    rw [Real.exp_neg, inv_le_comm₀ hpos (by norm_num)]
    linarith
  rw [Real.tanh_eq_sinh_div_cosh, Real.sinh_eq, Real.cosh_eq, lt_div_iff₀ (by positivity)]
  linarith

theorem softClip_real_knee : (0.81 : ℝ) < softClip Real.tanh 0.8 (0.9 * 0.9) := by
  have e : ((|(0.9 : ℝ) * 0.9| - 0.8) * 6) = 3 / 50 := by
    rw [abs_of_nonneg (by norm_num)]
    norm_num
  unfold softClip
  rw [if_pos (by rw [abs_of_nonneg (by norm_num)]; norm_num)]
  simp only [e]
  rw [if_pos (by norm_num)]
  have := real_tanh_gt
  linarith

/-! ## Silence after reset -/

section Silence

variable {α : Type} [LinearOrderedField α] [FloorRing α]

theorem getSample_replicate_zero (m : Nat) (i : Int) :
    getSample (List.replicate m (0 : α)) i = 0 := by
  unfold getSample
  split_ifs with h
  · rw [List.getD_eq_getElem?_getD, List.getElem?_replicate]
    split_ifs <;> rfl
  · rfl

theorem list_set_getD {β : Type} (d : β) : ∀ (l : List β) (c : Nat), l.set c (l.getD c d) = l
  | [], _ => rfl
  | _ :: _, 0 => rfl
  | x :: xs, c + 1 => by
    simp only [List.getD_cons_succ, List.set_cons_succ, list_set_getD d xs c]

theorem setSample_replicate_zero (m : Nat) (i : Int) :
    setSample (List.replicate m (0 : α)) i 0 = List.replicate m 0 := by
  unfold setSample
  split_ifs with h
  · have e : (List.replicate m (0 : α)).getD i.toNat 0 = 0 := by
      rw [List.getD_eq_getElem?_getD, List.getElem?_replicate]
      split_ifs <;> rfl
    have hs := list_set_getD (0 : α) (List.replicate m (0 : α)) i.toNat
    rw [e] at hs
    exact hs
  · rfl

theorem readDelayed_replicate_zero (m : Nat) (r : α) :
    readDelayed (List.replicate m (0 : α)) r = 0 := by
  unfold readDelayed
  simp only [getSample_replicate_zero, sub_zero, mul_zero, add_zero]

theorem mixOutput_zero (tanh : α → α) (mix : α) : mixOutput tanh mix 0 0 = 0 := by
  unfold mixOutput
  simp only [zero_mul, add_zero]
  rw [softClip_eq_self tanh (by norm_num), jlimit_zero (by norm_num) (by norm_num)]

theorem harmonyMix_zero (tanh : α → α) (mixLevel : α) : harmonyMix tanh mixLevel 0 0 = 0 := by
  unfold harmonyMix
  rw [jlimit_zero (by norm_num) (by norm_num)]
  simp only [zero_mul, add_zero]
  rw [softClip_eq_self tanh (by norm_num), jlimit_zero (by norm_num) (by norm_num)]

theorem processSample_silence (tanh : α → α) (pitchRatio mix feedback : α) (voice : Voice α)
    (m : Nat) (hv : voice.delayBuffer = List.replicate m 0) :
    (processSample tanh pitchRatio mix feedback voice 0).2 = 0 ∧
    (processSample tanh pitchRatio mix feedback voice 0).1.delayBuffer = List.replicate m 0 := by
  have hj : jlimit (-0.85) 0.85 (0 : α) = 0 := jlimit_zero (by norm_num) (by norm_num)
  have hk : jlimit (-0.9) 0.9 (0 : α) = 0 := jlimit_zero (by norm_num) (by norm_num)
  constructor
  · rw [processSample_out, hv, readDelayed_replicate_zero, hj, hk, mixOutput_zero]
  · unfold processSample
    simp only [hv, readDelayed_replicate_zero, hj, hk, zero_mul, add_zero,
      setSample_replicate_zero]

theorem processSamples_silence (tanh : α → α) (pitchRatio mix feedback : α) (m : Nat) :
    ∀ (n : Nat) (voice : Voice α), voice.delayBuffer = List.replicate m 0 →
      (processSamples tanh pitchRatio mix feedback voice (List.replicate n 0)).2
          = List.replicate n 0 ∧
      (processSamples tanh pitchRatio mix feedback voice (List.replicate n 0)).1.delayBuffer
          = List.replicate m 0
  | 0, _, hv => ⟨rfl, hv⟩
  | n + 1, voice, hv => by
    obtain ⟨h1, h2⟩ := processSample_silence tanh pitchRatio mix feedback voice m hv
    obtain ⟨h3, h4⟩ := processSamples_silence tanh pitchRatio mix feedback m n _ h2
    simp only [List.replicate_succ, processSamples]
    exact ⟨by rw [h1, h3], h4⟩

theorem PitchShifter.processBlock_silence (tanh exp2 : α → α) (ps : PitchShifter α)
    (pitchShiftSemitones mix feedback : α) (m n : Nat)
    (hv : ps.voices.delayBuffer = List.replicate m 0) :
    (ps.processBlock tanh exp2 (List.replicate n 0) pitchShiftSemitones mix feedback).2
        = List.replicate n 0 ∧
    (ps.processBlock tanh exp2 (List.replicate n 0) pitchShiftSemitones mix
        feedback).1.voices.delayBuffer = List.replicate m 0 := by
  unfold PitchShifter.processBlock
  split_ifs with h
  · exact ⟨rfl, hv⟩
  · exact processSamples_silence tanh _ _ _ m n _ hv

theorem zipWith_replicate_zero (f : α → α → α) (hf : f 0 0 = 0) :
    ∀ n : Nat, List.zipWith f (List.replicate n 0) (List.replicate n 0) = List.replicate n 0
  | 0 => rfl
  | n + 1 => by
    simp only [List.replicate_succ, List.zipWith_cons_cons, hf, zipWith_replicate_zero f hf n]

theorem processChannel_silence (tanh exp2 : α → α) (shifter harmonizer : PitchShifter α)
    (pitchShift mix feedback h : α) (m1 m2 n : Nat)
    (h1 : shifter.voices.delayBuffer = List.replicate m1 0)
    (h2 : harmonizer.voices.delayBuffer = List.replicate m2 0) :
    (processChannel tanh exp2 shifter harmonizer (List.replicate n 0) pitchShift mix feedback
        h).2.2 = List.replicate n 0 ∧
    (processChannel tanh exp2 shifter harmonizer (List.replicate n 0) pitchShift mix feedback
        h).1.voices.delayBuffer = List.replicate m1 0 ∧
    (processChannel tanh exp2 shifter harmonizer (List.replicate n 0) pitchShift mix feedback
        h).2.1.voices.delayBuffer = List.replicate m2 0 := by
  obtain ⟨a1, a2⟩ := PitchShifter.processBlock_silence tanh exp2 shifter pitchShift mix
    feedback m1 n h1
  obtain ⟨b1, b2⟩ := PitchShifter.processBlock_silence tanh exp2 harmonizer h 1 0 m2 n h2
  unfold processChannel
  split_ifs with hh
  · refine ⟨?_, a2, b2⟩
    simp only [a1, b1]
    exact zipWith_replicate_zero _ (harmonyMix_zero tanh mix) n
  · exact ⟨a1, a2, h2⟩

theorem getAt_silent {a : PitchShifter α × PitchShifter α} (h1 : a.1.silent) (h2 : a.2.silent)
    (c : Nat) : (getAt a c).silent := by
  unfold getAt
  split_ifs
  · exact h1
  · exact h2

theorem setAt_silent {a : PitchShifter α × PitchShifter α} (h1 : a.1.silent) (h2 : a.2.silent)
    (c : Nat) {v : PitchShifter α} (hv : v.silent) :
    (setAt a c v).1.silent ∧ (setAt a c v).2.silent := by
  unfold setAt
  split_ifs
  · exact ⟨hv, h2⟩
  · exact ⟨h1, hv⟩

theorem getD_replicate_silent {β : Type} (nCh n c : Nat) (z : β) :
    ∃ k, (List.replicate nCh (List.replicate n z)).getD c [] = List.replicate k z := by
  rw [List.getD_eq_getElem?_getD, List.getElem?_replicate]
  split_ifs
  · exact ⟨n, rfl⟩
  · exact ⟨0, rfl⟩

theorem channelStep_silence (tanh exp2 : α → α) (pitchShift mix feedback h : α)
    (p : NoctaveAudioProcessor α) (nCh n c : Nat) (hp : p.silent) :
    (channelStep tanh exp2 pitchShift mix feedback h
        (p, List.replicate nCh (List.replicate n 0)) c).2
      = List.replicate nCh (List.replicate n 0) ∧
    (channelStep tanh exp2 pitchShift mix feedback h
        (p, List.replicate nCh (List.replicate n 0)) c).1.silent := by
  obtain ⟨s1, s2, s3, s4⟩ := hp
  obtain ⟨k, hk⟩ := getD_replicate_silent nCh n c (0 : α)
  obtain ⟨m1, hm1⟩ := getAt_silent s1 s2 c
  obtain ⟨m2, hm2⟩ := getAt_silent s3 s4 c
  obtain ⟨a, b1, b2⟩ := processChannel_silence tanh exp2 _ _ pitchShift mix feedback h m1 m2 k
    hm1 hm2
  unfold channelStep
  simp only [hk]
  refine ⟨?_, ?_⟩
  · rw [a, ← hk]
    exact list_set_getD [] _ c
  · have t1 := setAt_silent s1 s2 c ⟨m1, b1⟩
    have t2 := setAt_silent s3 s4 c ⟨m2, b2⟩
    exact ⟨t1.1, t1.2, t2.1, t2.2⟩

theorem foldl_channelStep_silence (tanh exp2 : α → α) (pitchShift mix feedback h : α)
    (nCh n : Nat) :
    ∀ (channels : List Nat) (p : NoctaveAudioProcessor α), p.silent →
      (channels.foldl (channelStep tanh exp2 pitchShift mix feedback h)
          (p, List.replicate nCh (List.replicate n 0))).2
        = List.replicate nCh (List.replicate n 0)
  | [], _, _ => rfl
  | c :: cs, p, hp => by
    obtain ⟨e1, e2⟩ := channelStep_silence tanh exp2 pitchShift mix feedback h p nCh n c hp
    have ih := foldl_channelStep_silence tanh exp2 pitchShift mix feedback h nCh n cs _ e2
    have hst : channelStep tanh exp2 pitchShift mix feedback h
        (p, List.replicate nCh (List.replicate n 0)) c
        = ((channelStep tanh exp2 pitchShift mix feedback h
            (p, List.replicate nCh (List.replicate n 0)) c).1,
          List.replicate nCh (List.replicate n 0)) := Prod.ext rfl e1
    rw [List.foldl_cons, hst]
    exact ih

theorem clearUnusedChannels_silence (nIn nOut nCh n : Nat) :
    clearUnusedChannels nIn nOut (List.replicate nCh (List.replicate n (0 : α)))
      = List.replicate nCh (List.replicate n 0) := by
  unfold clearUnusedChannels
  generalize List.range' nIn (nOut - nIn) = l
  induction l with
  | nil => rfl
  | cons i is ih =>
    rw [List.foldl_cons]
    obtain ⟨k, hk⟩ := getD_replicate_silent nCh n i (0 : α)
    have e : (List.replicate nCh (List.replicate n (0 : α))).set i
        (List.replicate ((List.replicate nCh (List.replicate n (0 : α))).getD i []).length 0)
        = List.replicate nCh (List.replicate n 0) := by
      have hs := list_set_getD [] (List.replicate nCh (List.replicate n (0 : α))) i
      rw [hk] at hs ⊢
      rw [List.length_replicate]
      exact hs
    rw [e]
    exact ih

theorem PitchShifter.reset_silent (ps : PitchShifter α) : ps.reset.silent :=
  ⟨ps.voices.delayBuffer.length, rfl⟩

theorem NoctaveAudioProcessor.releaseResources_silent (p : NoctaveAudioProcessor α) :
    p.releaseResources.silent :=
  ⟨PitchShifter.reset_silent _, PitchShifter.reset_silent _, PitchShifter.reset_silent _,
    PitchShifter.reset_silent _⟩

end Silence

/-! ## Cursor distance at pitch ratio 1 -/

section Distance

variable {α : Type} [LinearOrderedField α] [FloorRing α]

theorem wrapBelow_congr (r : α) : ∃ k : ℤ, wrapBelow r = r + k * (maxDelaySamples : α) := by
  induction r using wrapBelow.induct with
  | case1 r h ih =>
    obtain ⟨k, hk⟩ := ih
    refine ⟨k + 1, ?_⟩
    rw [wrapBelow, if_pos h, hk]
    push_cast
    ring
  | case2 r h =>
    refine ⟨0, ?_⟩
    rw [wrapBelow, if_neg h]
    simp

theorem wrapAbove_congr (r : α) : ∃ k : ℤ, wrapAbove r = r + k * (maxDelaySamples : α) := by
  induction r using wrapAbove.induct with
  | case1 r h ih =>
    obtain ⟨k, hk⟩ := ih
    refine ⟨k - 1, ?_⟩
    rw [wrapAbove, if_pos h, hk]
    push_cast
    ring
  | case2 r h =>
    refine ⟨0, ?_⟩
    rw [wrapAbove, if_neg h]
    simp

theorem modCapacity_add_int_mul (x : α) (k : ℤ) :
    modCapacity (x + k * (maxDelaySamples : α)) = modCapacity x := by
  have hc : (maxDelaySamples : α) ≠ 0 := ne_of_gt maxDelaySamples_pos
  have e : (x + k * (maxDelaySamples : α)) / (maxDelaySamples : α)
      = x / (maxDelaySamples : α) + k := by
    field_simp
  unfold modCapacity
  rw [e, Int.floor_add_int]
  push_cast
  ring

theorem modCapacity_eq_self {x : α} (h0 : 0 ≤ x) (h1 : x < (maxDelaySamples : α)) :
    modCapacity x = x := by
  have hc : (0 : α) < (maxDelaySamples : α) := maxDelaySamples_pos
  have hf : ⌊x / (maxDelaySamples : α)⌋ = 0 :=
    Int.floor_eq_zero_iff.mpr ⟨div_nonneg h0 hc.le, (div_lt_one hc).mpr h1⟩
  unfold modCapacity
  rw [hf]
  simp

theorem processSample_distance (tanh : α → α) (mix feedback : α) (voice : Voice α) (input : α) :
    ∃ k : ℤ,
      (processSample tanh 1 mix feedback voice input).1.writePosition
          - (processSample tanh 1 mix feedback voice input).1.readPosition
        = voice.writePosition - voice.readPosition + 2 + k * (maxDelaySamples : α) := by
  obtain ⟨k1, h1⟩ := wrapBelow_congr (voice.readPosition - 1)
  obtain ⟨k2, h2⟩ := wrapAbove_congr (wrapBelow (voice.readPosition - 1))
  rw [processSample_readPosition, processSample_writePosition, h2, h1]
  split_ifs with h
  · refine ⟨-1 - k1 - k2, ?_⟩
    push_cast
    ring
  · refine ⟨-k1 - k2, ?_⟩
    push_cast
    ring

theorem processSamples_distance (tanh : α → α) (mix feedback : α) :
    ∀ (block : List α) (voice : Voice α), ∃ k : ℤ,
      (processSamples tanh 1 mix feedback voice block).1.writePosition
          - (processSamples tanh 1 mix feedback voice block).1.readPosition
        = voice.writePosition - voice.readPosition + 2 * (block.length : α)
          + k * (maxDelaySamples : α)
  | [], voice => ⟨0, by simp [processSamples]⟩
  | x :: xs, voice => by
    obtain ⟨k1, h1⟩ := processSample_distance tanh mix feedback voice x
    obtain ⟨k2, h2⟩ := processSamples_distance tanh mix feedback xs
      (processSample tanh 1 mix feedback voice x).1
    refine ⟨k1 + k2, ?_⟩
    simp only [processSamples, List.length_cons]
    rw [h2, h1]
    push_cast
    ring

theorem PitchShifter.processBlock_unison (tanh exp2 : α → α) (h0 : exp2 0 = 1)
    (ps : PitchShifter α) (block : List α) (mix feedback : α) (hs : ps.smoothedPitchShift = 0) :
    (ps.processBlock tanh exp2 block 0 mix feedback).1.smoothedPitchShift = 0 ∧
    ∃ k : ℤ,
      (ps.processBlock tanh exp2 block 0 mix feedback).1.voices.writePosition
          - (ps.processBlock tanh exp2 block 0 mix feedback).1.voices.readPosition
        = ps.voices.writePosition - ps.voices.readPosition + 2 * (block.length : α)
          + k * (maxDelaySamples : α) := by
  cases block with
  | nil =>
    rw [PitchShifter.processBlock_nil]
    exact ⟨hs, 0, by simp⟩
  | cons x xs =>
    have e : exp2 ((ps.smoothedPitchShift * 0.995 + 0 * (1 - 0.995)) / 12) = 1 := by
      rw [hs]
      simp only [zero_mul, add_zero, zero_div]
      exact h0
    rw [PitchShifter.processBlock_cons, e]
    refine ⟨?_, processSamples_distance tanh mix (jlimit 0 0.5 feedback) (x :: xs) ps.voices⟩
    simp only [hs, zero_mul, add_zero]

theorem PitchShifter.runBlocks_unison (tanh exp2 : α → α) (h0 : exp2 0 = 1) :
    ∀ (calls : List (List α × α × α)) (ps : PitchShifter α), ps.smoothedPitchShift = 0 →
      (ps.runBlocks tanh exp2
          (calls.map (fun c => (c.1, 0, c.2.1, c.2.2)))).smoothedPitchShift = 0 ∧
      ∃ k : ℤ,
        (ps.runBlocks tanh exp2
            (calls.map (fun c => (c.1, 0, c.2.1, c.2.2)))).voices.writePosition
          - (ps.runBlocks tanh exp2
              (calls.map (fun c => (c.1, 0, c.2.1, c.2.2)))).voices.readPosition
          = ps.voices.writePosition - ps.voices.readPosition
            + 2 * (((calls.map (fun c => c.1.length)).sum : Nat) : α)
            + k * (maxDelaySamples : α)
  | [], ps, hs => ⟨hs, 0, by simp [PitchShifter.runBlocks]⟩
  | c :: cs, ps, hs => by
    obtain ⟨a1, k1, a2⟩ := PitchShifter.processBlock_unison tanh exp2 h0 ps c.1 c.2.1 c.2.2 hs
    obtain ⟨b1, k2, b2⟩ := PitchShifter.runBlocks_unison tanh exp2 h0 cs _ a1
    simp only [PitchShifter.runBlocks, List.map_cons, List.foldl_cons, List.sum_cons] at b1 b2 ⊢
    refine ⟨b1, k1 + k2, ?_⟩
    rw [b2, a2]
    push_cast
    ring

end Distance

/-! ## Feedback clamp -/

section Feedback

variable {α : Type} [LinearOrderedField α] [FloorRing α]

theorem PitchShifter.processBlock_feedback_congr (tanh exp2 : α → α) (ps : PitchShifter α)
    (buffer : List α) (pitchShiftSemitones mix : α) {f g : α}
    (h : jlimit 0 0.5 f = jlimit 0 0.5 g) :
    ps.processBlock tanh exp2 buffer pitchShiftSemitones mix f
      = ps.processBlock tanh exp2 buffer pitchShiftSemitones mix g := by
  unfold PitchShifter.processBlock
  simp only [h]

end Feedback

/-! ## Channels outside the processed range -/

section Frame

variable {α : Type} [LinearOrderedField α] [FloorRing α]

theorem getD_set_replicate_length (b : List (List α)) (i : Nat) :
    (b.set i (List.replicate (b.getD i []).length 0)).getD i []
      = List.replicate (b.getD i []).length 0 := by
  by_cases hi : i < b.length
  · simp only [List.getD_eq_getElem?_getD, List.getElem?_set_self hi, Option.getD_some]
  · have hn : b[i]? = none := List.getElem?_eq_none (not_lt.mp hi)
    simp only [List.getD_eq_getElem?_getD, List.getElem?_set, hn, if_true, Option.getD_none,
      List.length_nil, List.replicate_zero]
    rw [if_neg hi]
    rfl

theorem foldl_clear_getD (c : Nat) :
    ∀ (len start : Nat) (b : List (List α)),
      ((List.range' start len).foldl
          (fun b i => b.set i (List.replicate (b.getD i []).length 0)) b).getD c []
        = if start ≤ c ∧ c < start + len then List.replicate (b.getD c []).length 0
          else b.getD c []
  | 0, start, b => by
    rw [if_neg (by omega)]
    rfl
  | len + 1, start, b => by
    rw [List.range'_succ, List.foldl_cons, foldl_clear_getD c len (start + 1)]
    by_cases hc : c = start
    · subst hc
      rw [if_neg (by omega), if_pos (by omega)]
      exact getD_set_replicate_length b c
    · have hne : start ≠ c := fun h => hc h.symm
      have e : (b.set start (List.replicate (b.getD start []).length 0)).getD c []
          = b.getD c [] := by
        simp only [List.getD_eq_getElem?_getD, List.getElem?_set_ne hne]
      rw [e]
      by_cases hr : start + 1 ≤ c ∧ c < start + 1 + len
      · rw [if_pos hr, if_pos (by omega)]
      · rw [if_neg hr, if_neg (by omega)]

theorem clearUnusedChannels_getD (nIn nOut c : Nat) (buffer : List (List α)) :
    (clearUnusedChannels nIn nOut buffer).getD c []
      = if nIn ≤ c ∧ c < nOut then List.replicate (buffer.getD c []).length 0
        else buffer.getD c [] := by
  unfold clearUnusedChannels
  rw [foldl_clear_getD c (nOut - nIn) nIn buffer]
  by_cases h : nIn ≤ c ∧ c < nOut
  · rw [if_pos h, if_pos (by omega)]
  · rw [if_neg h, if_neg (by omega)]

theorem processBlock_getD_unprocessed (tanh exp2 : α → α) (p : NoctaveAudioProcessor α)
    (nIn nOut : Nat) (buffer : List (List α)) (pitchShift mix feedback h : α) (c : Nat)
    (hc : min nIn 2 ≤ c) :
    (p.processBlock tanh exp2 nIn nOut buffer pitchShift mix feedback h).2.getD c []
      = (clearUnusedChannels nIn nOut buffer).getD c [] := by
  rcases processBlock_eq_of_min tanh exp2 p nIn nOut buffer pitchShift mix feedback h with
    ⟨hm, e⟩ | ⟨hm, e⟩ | ⟨hm, e⟩
  · rw [e]
  · rw [e, channelStep_getD_other tanh exp2 _ _ _ _ _ (by omega : (0 : Nat) ≠ c)]
  · rw [e, channelStep_getD_other tanh exp2 _ _ _ _ _ (by omega : (1 : Nat) ≠ c),
      channelStep_getD_other tanh exp2 _ _ _ _ _ (by omega : (0 : Nat) ≠ c)]

end Frame

/-! ## Interpolated read -/

section Interpolation

variable {α : Type} [LinearOrderedField α] [FloorRing α]

theorem truncToInt_of_nonneg {x : α} (h : 0 ≤ x) : truncToInt x = ⌊x⌋ := by
  unfold truncToInt
  rw [if_pos h]

theorem truncToInt_bounds {x : α} (h0 : 0 ≤ x) (h1 : x < (maxDelaySamples : α)) :
    0 ≤ truncToInt x ∧ truncToInt x < (maxDelaySamples : ℤ) := by
  rw [truncToInt_of_nonneg h0]
  refine ⟨Int.floor_nonneg.mpr h0, Int.floor_lt.mpr ?_⟩
  push_cast
  exact h1

theorem truncToInt_frac {x : α} (h0 : 0 ≤ x) :
    0 ≤ x - (truncToInt x : α) ∧ x - (truncToInt x : α) < 1 := by
  rw [truncToInt_of_nonneg h0]
  constructor
  · linarith [Int.floor_le x]
  · linarith [Int.lt_floor_add_one x]

theorem readPosNext_bounds {i : ℤ} (h0 : 0 ≤ i) :
    (i + 1).tmod (maxDelaySamples : ℤ) = (i + 1) % (maxDelaySamples : ℤ) ∧
    0 ≤ (i + 1).tmod (maxDelaySamples : ℤ) ∧
    (i + 1).tmod (maxDelaySamples : ℤ) < (maxDelaySamples : ℤ) := by
  have hc : (0 : ℤ) < (maxDelaySamples : ℤ) := by norm_num [maxDelaySamples]
  have e : (i + 1).tmod (maxDelaySamples : ℤ) = (i + 1) % (maxDelaySamples : ℤ) :=
    Int.tmod_eq_emod (by omega) hc.le
  rw [e]
  exact ⟨rfl, Int.emod_nonneg _ (ne_of_gt hc), Int.emod_lt_of_pos _ hc⟩

theorem lerp_between {a b f : α} (hf0 : 0 ≤ f) (hf1 : f ≤ 1) :
    min a b ≤ a + f * (b - a) ∧ a + f * (b - a) ≤ max a b := by
  rcases le_total a b with h | h
  · rw [min_eq_left h, max_eq_right h]
    constructor
    · nlinarith
    · nlinarith
  · rw [min_eq_right h, max_eq_left h]
    constructor
    · nlinarith
    · nlinarith

theorem lerp_within {lo hi a b f : α} (hf0 : 0 ≤ f) (hf1 : f ≤ 1) (ha : lo ≤ a ∧ a ≤ hi)
    (hb : lo ≤ b ∧ b ≤ hi) : lo ≤ a + f * (b - a) ∧ a + f * (b - a) ≤ hi := by
  obtain ⟨h1, h2⟩ : min a b ≤ a + f * (b - a) ∧ a + f * (b - a) ≤ max a b :=
    lerp_between hf0 hf1
  exact ⟨le_trans (le_min ha.1 hb.1) h1, le_trans h2 (max_le ha.2 hb.2)⟩

theorem readDelayed_eq (delayBuffer : List α) (r : α) :
    readDelayed delayBuffer r
      = getSample delayBuffer (truncToInt r)
        + (r - (truncToInt r : α))
          * (getSample delayBuffer ((truncToInt r + 1).tmod (maxDelaySamples : ℤ))
            - getSample delayBuffer (truncToInt r)) := rfl

end Interpolation

/-! ## Peak magnitude of the delay line -/

section Peak

variable {α : Type} [LinearOrderedField α] [FloorRing α]

theorem peakMagnitude_nonneg : ∀ buf : List α, 0 ≤ peakMagnitude buf
  | [] => le_refl _
  | x :: _ => le_trans (abs_nonneg x) (le_max_left _ _)

theorem abs_le_peakMagnitude : ∀ (buf : List α) (x : α), x ∈ buf → |x| ≤ peakMagnitude buf
  | [], _, h => by cases h
  | y :: ys, x, h => by
    rcases List.mem_cons.mp h with rfl | h
    · exact le_max_left _ _
    · exact le_trans (abs_le_peakMagnitude ys x h) (le_max_right _ _)

theorem peakMagnitude_le {c : α} (hc : 0 ≤ c) :
    ∀ buf : List α, (∀ x ∈ buf, |x| ≤ c) → peakMagnitude buf ≤ c
  | [], _ => hc
  | y :: ys, h =>
    max_le (h y (List.mem_cons_self y ys))
      (peakMagnitude_le hc ys (fun x hx => h x (List.mem_cons_of_mem y hx)))

theorem getSample_mem_or_zero (buf : List α) (i : ℤ) :
    getSample buf i ∈ buf ∨ getSample buf i = 0 := by
  unfold getSample
  split_ifs with h
  · by_cases hi : i.toNat < buf.length
    · left
      rw [List.getD_eq_getElem?_getD, List.getElem?_eq_getElem hi, Option.getD_some]
      exact List.getElem_mem hi
    · right
      rw [List.getD_eq_getElem?_getD, List.getElem?_eq_none (not_lt.mp hi), Option.getD_none]
  · right
    rfl

theorem getSample_abs_le_peak (buf : List α) (i : ℤ) :
    |getSample buf i| ≤ peakMagnitude buf := by
  rcases getSample_mem_or_zero buf i with h | h
  · exact abs_le_peakMagnitude buf _ h
  · rw [h, abs_zero]
    exact peakMagnitude_nonneg buf

theorem peakMagnitude_setSample_le (buf : List α) (i : ℤ) {v : α}
    (hv : |v| ≤ peakMagnitude buf) : peakMagnitude (setSample buf i v) ≤ peakMagnitude buf := by
  unfold setSample
  split_ifs with h
  · refine peakMagnitude_le (peakMagnitude_nonneg buf) _ ?_
    intro x hx
    rcases List.mem_or_eq_of_mem_set hx with hx | rfl
    · exact abs_le_peakMagnitude buf x hx
    · exact hv
  · exact le_refl _

theorem readDelayed_abs_le_peak (buf : List α) {r : α} (hr : 0 ≤ r) :
    |readDelayed buf r| ≤ peakMagnitude buf := by
  obtain ⟨hf0, hf1⟩ := truncToInt_frac hr
  have h1 := abs_le.mp (getSample_abs_le_peak buf (truncToInt r))
  have h2 := abs_le.mp
    (getSample_abs_le_peak buf ((truncToInt r + 1).tmod (maxDelaySamples : ℤ)))
  rw [readDelayed_eq]
  exact abs_le.mpr (lerp_within hf0 hf1.le h1 h2)

theorem jlimit_abs_le_abs {b : α} (hb : 0 ≤ b) (v : α) : |jlimit (-b) b v| ≤ |v| := by
  unfold jlimit
  split_ifs with h1 h2
  · rw [abs_neg, abs_of_nonneg hb, abs_of_neg (by linarith)]
    linarith
  · rw [abs_of_nonneg hb, abs_of_pos (by linarith)]
    linarith
  · exact le_refl _

theorem feedback_gain_bounds (f : α) :
    0 ≤ jlimit 0 0.5 f * 0.75 ∧ jlimit 0 0.5 f * 0.75 ≤ 0.375 := by
  have h0 := jlimit_ge (by norm_num : (0 : α) ≤ 0.5) f
  have h1 := jlimit_le (by norm_num : (0 : α) ≤ 0.5) f
  constructor <;> linarith

theorem processSample_delayBuffer (tanh : α → α) (pitchRatio mix feedback : α)
    (voice : Voice α) (input : α) :
    (processSample tanh pitchRatio mix feedback voice input).1.delayBuffer
      = setSample voice.delayBuffer (truncToInt voice.writePosition)
          (jlimit (-0.85) 0.85
            (jlimit (-0.9) 0.9 input
              + jlimit (-0.85) 0.85 (readDelayed voice.delayBuffer
                  (wrapAbove (wrapBelow (voice.readPosition - pitchRatio))))
                * feedback * 0.75)) := rfl

theorem silent_write_le (buf : List α) (r f : α) (hr : 0 ≤ r) :
    |jlimit (-0.85) 0.85 (0 + jlimit (-0.85) 0.85 (readDelayed buf r) * jlimit 0 0.5 f * 0.75)|
      ≤ 0.375 * peakMagnitude buf := by
  obtain ⟨g0, g1⟩ := feedback_gain_bounds f
  have hp := peakMagnitude_nonneg buf
  have ho : |jlimit (-0.85) 0.85 (readDelayed buf r)| ≤ peakMagnitude buf :=
    le_trans (jlimit_abs_le_abs (by norm_num) _) (readDelayed_abs_le_peak buf hr)
  refine le_trans (jlimit_abs_le_abs (by norm_num) _) ?_
  rw [zero_add, mul_assoc, abs_mul, abs_of_nonneg g0]
  calc |jlimit (-0.85) 0.85 (readDelayed buf r)| * (jlimit 0 0.5 f * 0.75)
      ≤ peakMagnitude buf * (jlimit 0 0.5 f * 0.75) := mul_le_mul_of_nonneg_right ho g0
    _ ≤ peakMagnitude buf * 0.375 := mul_le_mul_of_nonneg_left g1 hp
    _ = 0.375 * peakMagnitude buf := mul_comm _ _

theorem processSample_silent_peak (tanh : α → α) (pitchRatio mix f : α) (voice : Voice α) :
    peakMagnitude (processSample tanh pitchRatio mix (jlimit 0 0.5 f) voice 0).1.delayBuffer
      ≤ peakMagnitude voice.delayBuffer := by
  have hw := silent_write_le voice.delayBuffer
    (wrapAbove (wrapBelow (voice.readPosition - pitchRatio))) f
    (wrapAbove_nonneg _ (wrapBelow_nonneg _))
  have hp := peakMagnitude_nonneg voice.delayBuffer
  rw [processSample_delayBuffer, jlimit_zero (by norm_num) (by norm_num)]
  exact peakMagnitude_setSample_le _ _ (le_trans hw (by linarith))

theorem processSamples_silent_peak (tanh : α → α) (pitchRatio mix f : α) :
    ∀ (n : Nat) (voice : Voice α),
      peakMagnitude (processSamples tanh pitchRatio mix (jlimit 0 0.5 f) voice
          (List.replicate n 0)).1.delayBuffer
        ≤ peakMagnitude voice.delayBuffer
  | 0, _ => le_refl _
  | n + 1, voice => by
    simp only [List.replicate_succ, processSamples]
    exact le_trans (processSamples_silent_peak tanh pitchRatio mix f n _)
      (processSample_silent_peak tanh pitchRatio mix f voice)

theorem PitchShifter.processBlock_silent_peak (tanh exp2 : α → α) (ps : PitchShifter α)
    (n : Nat) (pitchShiftSemitones mix f : α) :
    peakMagnitude (ps.processBlock tanh exp2 (List.replicate n 0) pitchShiftSemitones mix
        f).1.voices.delayBuffer
      ≤ peakMagnitude ps.voices.delayBuffer := by
  unfold PitchShifter.processBlock
  split_ifs with h
  · exact le_refl _
  · exact processSamples_silent_peak tanh _ mix f n ps.voices

end Peak

/-! ## Soft clip below the hard limit -/

section SoftLimit

variable {α : Type} [LinearOrderedField α]

theorem mixOutput_eq (tanh : α → α) (mix input output : α) :
    mixOutput tanh mix input output
      = jlimit (-0.9) 0.9 (softClip tanh 0.8
          (input * ((1 - mix) * 0.9) + output * (mix * 0.85 * (1 - mix * 0.15)))) := rfl

theorem preclip_abs_le {a b m : α} (ha : |a| ≤ 0.9) (hb : |b| ≤ 0.85) (hm0 : 0 ≤ m)
    (hm1 : m ≤ 1) : |a * ((1 - m) * 0.9) + b * (m * 0.85 * (1 - m * 0.15))| ≤ 0.81 := by
  have hd : (0 : α) ≤ (1 - m) * 0.9 := mul_nonneg (by linarith) (by norm_num)
  have hw : (0 : α) ≤ m * 0.85 * (1 - m * 0.15) :=
    mul_nonneg (mul_nonneg hm0 (by norm_num)) (by linarith)
  have h1 : |a * ((1 - m) * 0.9)| ≤ 0.9 * ((1 - m) * 0.9) := by
    rw [abs_mul, abs_of_nonneg hd]
    exact mul_le_mul_of_nonneg_right ha hd
  have h2 : |b * (m * 0.85 * (1 - m * 0.15))| ≤ 0.85 * (m * 0.85 * (1 - m * 0.15)) := by
    rw [abs_mul, abs_of_nonneg hw]
    exact mul_le_mul_of_nonneg_right hb hw
  have h3 : (0 : α) ≤ m * m := mul_nonneg hm0 hm0
  calc |a * ((1 - m) * 0.9) + b * (m * 0.85 * (1 - m * 0.15))|
      ≤ |a * ((1 - m) * 0.9)| + |b * (m * 0.85 * (1 - m * 0.15))| := abs_add _ _
    _ ≤ 0.9 * ((1 - m) * 0.9) + 0.85 * (m * 0.85 * (1 - m * 0.15)) := add_le_add h1 h2
    _ ≤ 0.81 := by nlinarith

theorem softClip_abs_le (tanh : α → α)
    (htanh : ∀ y : α, 0 ≤ y → y ≤ 1 / 4 → 0 ≤ tanh y ∧ tanh y ≤ 1 / 2) {x : α}
    (hx : |x| ≤ 0.81) : |softClip tanh 0.8 x| ≤ 0.9 := by
  unfold softClip
  split_ifs with h1 h2
  · obtain ⟨t0, t1⟩ := htanh ((|x| - 0.8) * 6) (by linarith) (by linarith)
    simp only [one_mul]
    rw [abs_of_nonneg (by linarith)]
    linarith
  · obtain ⟨t0, t1⟩ := htanh ((|x| - 0.8) * 6) (by linarith) (by linarith)
    simp only [neg_mul, one_mul, abs_neg]
    rw [abs_of_nonneg (by linarith)]
    linarith
  · linarith

end SoftLimit

theorem real_tanh_small (y : ℝ) (h0 : 0 ≤ y) (h1 : y ≤ 1 / 4) :
    0 ≤ Real.tanh y ∧ Real.tanh y ≤ 1 / 2 := by
  have hn : -y + 1 ≤ Real.exp (-y) := Real.add_one_le_exp _
  have hpos : (0 : ℝ) < Real.exp (-y) := Real.exp_pos _
  have he : Real.exp y * Real.exp (-y) = 1 := by
    rw [← Real.exp_add, add_neg_cancel, Real.exp_zero]
  have hle : Real.exp (-y) ≤ Real.exp y := Real.exp_le_exp.mpr (by linarith)
  have hup : Real.exp y ≤ 4 / 3 := by nlinarith
  have hc : (0 : ℝ) < (Real.exp y + Real.exp (-y)) / 2 := by positivity
  rw [Real.tanh_eq_sinh_div_cosh, Real.sinh_eq, Real.cosh_eq]
  constructor
  · exact div_nonneg (by linarith) hc.le
  · rw [div_le_iff₀ hc]
    linarith

/-! ## Smoothed pitch -/

section Smoothing

variable {α : Type} [LinearOrderedField α] [FloorRing α]

theorem smooth_between (s t : α) :
    min s t ≤ s * 0.995 + t * (1 - 0.995) ∧ s * 0.995 + t * (1 - 0.995) ≤ max s t := by
  rcases le_total s t with h | h
  · rw [min_eq_left h, max_eq_right h]
    constructor <;> linarith
  · rw [min_eq_right h, max_eq_left h]
    constructor <;> linarith

theorem PitchShifter.processBlock_smoothed (tanh exp2 : α → α) (ps : PitchShifter α)
    (buffer : List α) (t mix feedback : α) :
    (ps.processBlock tanh exp2 buffer t mix feedback).1.smoothedPitchShift
      = ps.smoothedPitchShift ∨
    (ps.processBlock tanh exp2 buffer t mix feedback).1.smoothedPitchShift
      = ps.smoothedPitchShift * 0.995 + t * (1 - 0.995) := by
  cases buffer with
  | nil =>
    left
    rfl
  | cons x xs =>
    right
    rw [PitchShifter.processBlock_cons]

theorem PitchShifter.processBlock_smoothed_between (tanh exp2 : α → α) (ps : PitchShifter α)
    (buffer : List α) (t mix feedback : α) :
    min ps.smoothedPitchShift t
      ≤ (ps.processBlock tanh exp2 buffer t mix feedback).1.smoothedPitchShift ∧
    (ps.processBlock tanh exp2 buffer t mix feedback).1.smoothedPitchShift
      ≤ max ps.smoothedPitchShift t := by
  rcases PitchShifter.processBlock_smoothed tanh exp2 ps buffer t mix feedback with e | e
  · rw [e]
    exact ⟨min_le_left _ _, le_max_left _ _⟩
  · rw [e]
    exact smooth_between _ _

theorem PitchShifter.processBlock_smoothed_range (tanh exp2 : α → α) (ps : PitchShifter α)
    (buffer : List α) (t mix feedback : α)
    (hs : -24 ≤ ps.smoothedPitchShift ∧ ps.smoothedPitchShift ≤ 24)
    (ht : -24 ≤ t ∧ t ≤ 24) :
    -24 ≤ (ps.processBlock tanh exp2 buffer t mix feedback).1.smoothedPitchShift ∧
    (ps.processBlock tanh exp2 buffer t mix feedback).1.smoothedPitchShift ≤ 24 := by
  obtain ⟨h1, h2⟩ := PitchShifter.processBlock_smoothed_between tanh exp2 ps buffer t mix
    feedback
  exact ⟨le_trans (le_min hs.1 ht.1) h1, le_trans h2 (max_le hs.2 ht.2)⟩

theorem PitchShifter.runBlocks_smoothed_range (tanh exp2 : α → α) :
    ∀ (calls : List (List α × α × α × α)) (ps : PitchShifter α),
      (-24 ≤ ps.smoothedPitchShift ∧ ps.smoothedPitchShift ≤ 24) →
      (∀ c ∈ calls, -24 ≤ c.2.1 ∧ c.2.1 ≤ 24) →
      -24 ≤ (ps.runBlocks tanh exp2 calls).smoothedPitchShift ∧
        (ps.runBlocks tanh exp2 calls).smoothedPitchShift ≤ 24
  | [], _, hs, _ => hs
  | c :: cs, ps, hs, hc => by
    simp only [PitchShifter.runBlocks, List.foldl_cons]
    exact PitchShifter.runBlocks_smoothed_range tanh exp2 cs _
      (PitchShifter.processBlock_smoothed_range tanh exp2 ps c.1 c.2.1 c.2.2.1 c.2.2.2 hs
        (hc c (List.mem_cons_self c cs)))
      (fun d hd => hc d (List.mem_cons_of_mem c hd))

end Smoothing

theorem real_exp2_bounds (s : ℝ) (h0 : -24 ≤ s) (h1 : s ≤ 24) :
    (1 / 4 : ℝ) ≤ (2 : ℝ) ^ (s / 12) ∧ (2 : ℝ) ^ (s / 12) ≤ 4 ∧ 0 < (2 : ℝ) ^ (s / 12) := by
  have e1 : (2 : ℝ) ^ (-2 : ℝ) = 1 / 4 := by
    rw [Real.rpow_neg (by norm_num), Real.rpow_two]
    norm_num
  have e2 : (2 : ℝ) ^ (2 : ℝ) = 4 := by
    rw [Real.rpow_two]
    norm_num
  refine ⟨?_, ?_, Real.rpow_pos_of_pos (by norm_num) _⟩
  · rw [← e1]
    exact Real.rpow_le_rpow_of_exponent_le (by norm_num) (by linarith)
  · rw [← e2]
    exact Real.rpow_le_rpow_of_exponent_le (by norm_num) (by linarith)

/-! ## Delay-line cells -/

section Cells

variable {α : Type} [LinearOrderedField α] [FloorRing α]

theorem allWithin_replicate_zero {lo hi : α} (h0 : lo ≤ 0) (h1 : 0 ≤ hi) (n : Nat) :
    allWithin lo hi (List.replicate n 0) := by
  intro y hy
  rw [List.eq_of_mem_replicate hy]
  exact ⟨h0, h1⟩

theorem allWithin_setSample {lo hi : α} {buf : List α} (h : allWithin lo hi buf) (i : ℤ)
    {v : α} (hv : lo ≤ v ∧ v ≤ hi) : allWithin lo hi (setSample buf i v) := by
  unfold setSample
  split_ifs with hi0
  · intro y hy
    rcases List.mem_or_eq_of_mem_set hy with hy | rfl
    · exact h y hy
    · exact hv
  · exact h

theorem getSample_within {lo hi : α} {buf : List α} (h : allWithin lo hi buf) (h0 : lo ≤ 0)
    (h1 : 0 ≤ hi) (i : ℤ) : lo ≤ getSample buf i ∧ getSample buf i ≤ hi := by
  rcases getSample_mem_or_zero buf i with hm | hz
  · exact h _ hm
  · rw [hz]
    exact ⟨h0, h1⟩

theorem readDelayed_within {lo hi : α} {buf : List α} (h : allWithin lo hi buf) (h0 : lo ≤ 0)
    (h1 : 0 ≤ hi) {r : α} (hr : 0 ≤ r) :
    lo ≤ readDelayed buf r ∧ readDelayed buf r ≤ hi := by
  obtain ⟨hf0, hf1⟩ := truncToInt_frac hr
  rw [readDelayed_eq]
  exact lerp_within hf0 hf1.le (getSample_within h h0 h1 _) (getSample_within h h0 h1 _)

theorem processSample_cells (tanh : α → α) (pitchRatio mix feedback : α) (voice : Voice α)
    (input : α) (h : allWithin (-0.85) 0.85 voice.delayBuffer) :
    allWithin (-0.85) 0.85
      (processSample tanh pitchRatio mix feedback voice input).1.delayBuffer := by
  rw [processSample_delayBuffer]
  exact allWithin_setSample h _ ⟨jlimit_ge (by norm_num) _, jlimit_le (by norm_num) _⟩

theorem processSamples_cells (tanh : α → α) (pitchRatio mix feedback : α) :
    ∀ (buffer : List α) (voice : Voice α), allWithin (-0.85) 0.85 voice.delayBuffer →
      allWithin (-0.85) 0.85
        (processSamples tanh pitchRatio mix feedback voice buffer).1.delayBuffer
  | [], _, h => h
  | x :: xs, voice, h => by
    simp only [processSamples]
    exact processSamples_cells tanh pitchRatio mix feedback xs _
      (processSample_cells tanh pitchRatio mix feedback voice x h)

theorem PitchShifter.processBlock_cells (tanh exp2 : α → α) (ps : PitchShifter α)
    (buffer : List α) (pitchShiftSemitones mix feedback : α)
    (h : allWithin (-0.85) 0.85 ps.voices.delayBuffer) :
    allWithin (-0.85) 0.85
      (ps.processBlock tanh exp2 buffer pitchShiftSemitones mix feedback).1.voices.delayBuffer := by
  unfold PitchShifter.processBlock
  split_ifs with h0
  · exact h
  · exact processSamples_cells tanh _ _ _ _ _ h

theorem PitchShifter.runBlocks_cells (tanh exp2 : α → α) :
    ∀ (calls : List (List α × α × α × α)) (ps : PitchShifter α),
      allWithin (-0.85) 0.85 ps.voices.delayBuffer →
      allWithin (-0.85) 0.85 (ps.runBlocks tanh exp2 calls).voices.delayBuffer
  | [], _, h => h
  | c :: cs, ps, h => by
    simp only [PitchShifter.runBlocks, List.foldl_cons]
    exact PitchShifter.runBlocks_cells tanh exp2 cs _
      (PitchShifter.processBlock_cells tanh exp2 ps c.1 c.2.1 c.2.2.1 c.2.2.2 h)

end Cells

/-! ## Result of the method on a processed channel -/

section ChannelResult

variable {α : Type} [LinearOrderedField α] [FloorRing α]

theorem processChannel_nil_out (tanh exp2 : α → α) (shifter harmonizer : PitchShifter α)
    (pitchShift mix feedback h : α) :
    (processChannel tanh exp2 shifter harmonizer [] pitchShift mix feedback h).2.2 = [] := by
  unfold processChannel
  split_ifs <;> rfl

theorem getAt_setAt_same {β : Type} (arr : β × β) (c : Nat) (v : β) :
    getAt (setAt arr c v) c = v := by
  unfold getAt setAt
  split_ifs <;> rfl

theorem getAt_setAt_zero_one {β : Type} (arr : β × β) (v : β) :
    getAt (setAt arr 0 v) 1 = getAt arr 1 := rfl

theorem getAt_setAt_one_zero {β : Type} (arr : β × β) (v : β) :
    getAt (setAt arr 1 v) 0 = getAt arr 0 := rfl

theorem channelStep_self (tanh exp2 : α → α) (pitchShift mix feedback h : α)
    (st : NoctaveAudioProcessor α × List (List α)) (c : Nat) :
    (channelStep tanh exp2 pitchShift mix feedback h st c).2.getD c []
      = (processChannel tanh exp2 (getAt st.1.pitchShifters c) (getAt st.1.harmonizers c)
          (st.2.getD c []) pitchShift mix feedback h).2.2 ∧
    getAt (channelStep tanh exp2 pitchShift mix feedback h st c).1.pitchShifters c
      = (processChannel tanh exp2 (getAt st.1.pitchShifters c) (getAt st.1.harmonizers c)
          (st.2.getD c []) pitchShift mix feedback h).1 ∧
    getAt (channelStep tanh exp2 pitchShift mix feedback h st c).1.harmonizers c
      = (processChannel tanh exp2 (getAt st.1.pitchShifters c) (getAt st.1.harmonizers c)
          (st.2.getD c []) pitchShift mix feedback h).2.1 := by
  refine ⟨?_, getAt_setAt_same _ _ _, getAt_setAt_same _ _ _⟩
  unfold channelStep
  by_cases hc : c < st.2.length
  · simp only [List.getD_eq_getElem?_getD, List.getElem?_set_self hc, Option.getD_some]
  · have hd : st.2.getD c [] = [] := by
      rw [List.getD_eq_getElem?_getD, List.getElem?_eq_none (not_lt.mp hc), Option.getD_none]
    rw [hd, processChannel_nil_out]
    show (st.2.set c _).getD c [] = []
    rw [List.set_eq_of_length_le (not_lt.mp hc)]
    exact hd

theorem clearUnusedChannels_getD_input (nIn nOut c : Nat) (buffer : List (List α))
    (hc : c < nIn) : (clearUnusedChannels nIn nOut buffer).getD c [] = buffer.getD c [] := by
  rw [clearUnusedChannels_getD, if_neg (by omega)]

theorem processBlock_channel (tanh exp2 : α → α) (p : NoctaveAudioProcessor α)
    (nIn nOut : Nat) (buffer : List (List α)) (pitchShift mix feedback h : α) (c : Nat)
    (hc : c < min nIn 2) :
    (p.processBlock tanh exp2 nIn nOut buffer pitchShift mix feedback h).2.getD c []
      = (processChannel tanh exp2 (getAt p.pitchShifters c) (getAt p.harmonizers c)
          (buffer.getD c []) pitchShift mix feedback h).2.2 ∧
    getAt (p.processBlock tanh exp2 nIn nOut buffer pitchShift mix feedback h).1.pitchShifters c
      = (processChannel tanh exp2 (getAt p.pitchShifters c) (getAt p.harmonizers c)
          (buffer.getD c []) pitchShift mix feedback h).1 ∧
    getAt (p.processBlock tanh exp2 nIn nOut buffer pitchShift mix feedback h).1.harmonizers c
      = (processChannel tanh exp2 (getAt p.pitchShifters c) (getAt p.harmonizers c)
          (buffer.getD c []) pitchShift mix feedback h).2.1 := by
  have hin : c < nIn := lt_of_lt_of_le hc (min_le_left _ _)
  have hb := clearUnusedChannels_getD_input nIn nOut c buffer hin
  rcases processBlock_eq_of_min tanh exp2 p nIn nOut buffer pitchShift mix feedback h with
    ⟨hm, e⟩ | ⟨hm, e⟩ | ⟨hm, e⟩
  · omega
  · have h0 : c = 0 := by omega
    subst h0
    have hs := channelStep_self tanh exp2 pitchShift mix feedback h
      (p, clearUnusedChannels nIn nOut buffer) 0
    simp only [hb] at hs
    rw [e]
    exact hs
  · have h01 : c = 0 ∨ c = 1 := by omega
    rcases h01 with h0 | h1
    · subst h0
      have hs := channelStep_self tanh exp2 pitchShift mix feedback h
        (p, clearUnusedChannels nIn nOut buffer) 0
      simp only [hb] at hs
      rw [e]
      refine ⟨?_, ?_, ?_⟩
      · rw [channelStep_getD_other tanh exp2 _ _ _ _ _ (by decide : (1 : Nat) ≠ 0)]
        exact hs.1
      · exact hs.2.1
      · exact hs.2.2
    · subst h1
      have hs := channelStep_self tanh exp2 pitchShift mix feedback h
        (channelStep tanh exp2 pitchShift mix feedback h
          (p, clearUnusedChannels nIn nOut buffer) 0) 1
      have hg : (channelStep tanh exp2 pitchShift mix feedback h
          (p, clearUnusedChannels nIn nOut buffer) 0).2.getD 1 [] = buffer.getD 1 [] := by
        rw [channelStep_getD_other tanh exp2 _ _ _ _ _ (by decide : (0 : Nat) ≠ 1)]
        exact hb
      rw [hg] at hs
      rw [e]
      exact hs

end ChannelResult

/-! ## Every sample of a block at mix 0 and mix 1 -/

section EverySample

variable {α : Type} [LinearOrderedField α] [FloorRing α]

theorem processSamples_mix_zero_out (tanh : α → α) (pitchRatio feedback : α) :
    ∀ (block : List α) (voice : Voice α),
      (processSamples tanh pitchRatio 0 feedback voice block).2
        = block.map (fun x =>
            jlimit (-0.9) 0.9 (softClip tanh 0.8 (jlimit (-0.9) 0.9 x * 0.9)))
  | [], _ => rfl
  | x :: xs, voice => by
    simp only [processSamples, List.map_cons]
    rw [processSamples_mix_zero_out tanh pitchRatio feedback xs, processSample_out,
      mixOutput_mix_zero]

end EverySample

/-! ## The dry path above the knee -/

theorem real_tanh_gt_linear (y : ℝ) (h0 : 0 < y) (h1 : y ≤ 3 / 50) :
    5 / 6 * y < Real.tanh y := by
  have ha : y + 1 ≤ Real.exp y := Real.add_one_le_exp y
  have hb : (0 : ℝ) < Real.exp (-y) := Real.exp_pos _
  have he : Real.exp y * Real.exp (-y) = 1 := by
    rw [← Real.exp_add, add_neg_cancel, Real.exp_zero]
  have hc : (0 : ℝ) < (Real.exp y + Real.exp (-y)) / 2 := by positivity
  have hsq : (y + 1) * (y + 1) ≤ Real.exp y * Real.exp y :=
    mul_le_mul ha ha (by linarith) (by linarith)
  have hk : 0 < Real.exp y * ((Real.exp y - Real.exp (-y))
      - 5 / 6 * y * (Real.exp y + Real.exp (-y))) := by
    have e : Real.exp y * ((Real.exp y - Real.exp (-y))
        - 5 / 6 * y * (Real.exp y + Real.exp (-y)))
        = Real.exp y * Real.exp y * (1 - 5 / 6 * y) - (1 + 5 / 6 * y) := by
      have : Real.exp y * Real.exp (-y) = 1 := he
      linear_combination (-1 - 5 / 6 * y) * this
    rw [e]
    have h2 : (y + 1) * (y + 1) * (1 - 5 / 6 * y) ≤ Real.exp y * Real.exp y * (1 - 5 / 6 * y) :=
      mul_le_mul_of_nonneg_right hsq (by linarith)
    nlinarith
  have hpos : 0 < (Real.exp y - Real.exp (-y)) - 5 / 6 * y * (Real.exp y + Real.exp (-y)) :=
    pos_of_mul_pos_right hk (Real.exp_pos y).le
  rw [Real.tanh_eq_sinh_div_cosh, Real.sinh_eq, Real.cosh_eq, lt_div_iff₀ hc]
  linarith

theorem dry_above_knee (x : ℝ) (h0 : 0.8 < 0.9 * |x|) (h1 : |x| ≤ 0.9) :
    0.9 * |x|
      < |jlimit (-0.9) 0.9 (softClip Real.tanh 0.8 (jlimit (-0.9) 0.9 x * 0.9))| := by
  have hv : |x * 0.9| = 0.9 * |x| := by
    rw [abs_mul, abs_of_nonneg (by norm_num : (0 : ℝ) ≤ 0.9), mul_comm]
  have hy0 : 0 < (|x * 0.9| - 0.8) * 6 := by
    rw [hv]
    linarith
  have hy1 : (|x * 0.9| - 0.8) * 6 ≤ 3 / 50 := by
    rw [hv]
    linarith
  have t1 := real_tanh_gt_linear _ hy0 hy1
  have t2 := (real_tanh_small _ hy0.le (by linarith)).2
  have hs : |softClip Real.tanh 0.8 (x * 0.9)|
      = 0.8 + (1 - 0.8) * Real.tanh ((|x * 0.9| - 0.8) * 6) := by
    unfold softClip
    rw [if_pos (by rw [hv]; exact h0)]
    split_ifs with hp
    · simp only [one_mul]
      rw [abs_of_nonneg (by linarith)]
    · simp only [neg_mul, one_mul, abs_neg]
      rw [abs_of_nonneg (by linarith)]
  rw [jlimit_eq_of_abs_le h1, jlimit_eq_of_abs_le (by rw [hs]; linarith), hs]
  linarith

/-! ## Supported bus layouts -/

section Layouts

theorem isBusesLayoutSupported_effect {mainInput mainOutput : AudioChannelSet}
    (h : isBusesLayoutSupported false false mainInput mainOutput = true) :
    mainOutput = mainInput ∧
      (mainInput = AudioChannelSet.mono ∨ mainInput = AudioChannelSet.stereo) := by
  unfold isBusesLayoutSupported at h
  simp only [Bool.false_eq_true, if_false, true_and] at h
  split_ifs at h with h1 h2
  have h3 : mainOutput = mainInput := not_not.mp h2
  refine ⟨h3, ?_⟩
  rw [← h3]
  by_cases hm : mainOutput = AudioChannelSet.mono
  · exact Or.inl hm
  · exact Or.inr (not_not.mp (fun hs => h1 ⟨hm, hs⟩))

end Layouts

section FrameGeneral

variable {α : Type} [LinearOrderedField α] [FloorRing α]

theorem processBlock_frame_general (tanh exp2 : α → α) (p : NoctaveAudioProcessor α)
    (nIn nOut : Nat) (buffer : List (List α)) (pitchShift mix feedback h : α) (c : Nat)
    (hc : min nIn 2 ≤ c) :
    (c < nIn ∨ nOut ≤ c →
      (p.processBlock tanh exp2 nIn nOut buffer pitchShift mix feedback h).2.getD c []
        = buffer.getD c []) ∧
    (nIn ≤ c ∧ c < nOut →
      (p.processBlock tanh exp2 nIn nOut buffer pitchShift mix feedback h).2.getD c []
        = List.replicate (buffer.getD c []).length 0) := by
  rw [processBlock_getD_unprocessed tanh exp2 p _ _ buffer _ _ _ _ c hc,
    clearUnusedChannels_getD]
  constructor
  · intro h
    rw [if_neg (by omega)]
  · intro h
    rw [if_pos h]

end FrameGeneral

/-! ## The wrap loops in binary32 -/

section Binary32

end Binary32

/-! ## The wrap loops in exact arithmetic -/

section ExactWrap

variable {α : Type} [LinearOrderedField α] [FloorRing α]

end ExactWrap

/-! ## The binary32 wrap loops on reachable ratios -/

section Binary32Range

end Binary32Range

/-! ## Claims -/

section Claims

variable {α : Type} [LinearOrderedField α] [FloorRing α]

/-- C1: every sample that `NoctaveAudioProcessor::processBlock` leaves in a processed channel
(index below `min totalNumInputChannels 2`) lies in `[-0.9, 0.9]`, and so does every sample
left in the block by `PitchShifter::processBlock`, for every prior state, input, pitch shift,
mix, feedback and harmonizer interval. -/
theorem output_within_limit (tanh exp2 : α → α) (p : NoctaveAudioProcessor α)
    (totalNumInputChannels totalNumOutputChannels : Nat) (buffer : List (List α))
    (ps : PitchShifter α) (block : List α) (pitchShift mix feedback harmonizerInterval : α) :
    (∀ channel, channel < min totalNumInputChannels 2 →
      allWithin (-0.9) 0.9
        ((p.processBlock tanh exp2 totalNumInputChannels totalNumOutputChannels buffer
          pitchShift mix feedback harmonizerInterval).2.getD channel [])) ∧
    allWithin (-0.9) 0.9 (ps.processBlock tanh exp2 block pitchShift mix feedback).2 := by
  refine ⟨?_, PitchShifter.processBlock_within tanh exp2 ps block pitchShift mix feedback⟩
  intro channel hc
  rcases processBlock_eq_of_min tanh exp2 p totalNumInputChannels totalNumOutputChannels buffer
    pitchShift mix feedback harmonizerInterval with ⟨hm, e⟩ | ⟨hm, e⟩ | ⟨hm, e⟩
  · omega
  · have h0 : channel = 0 := by omega
    rw [e, h0]
    exact channelStep_getD_self tanh exp2 _ _ _ _ _ 0
  · have h01 : channel = 0 ∨ channel = 1 := by omega
    rcases h01 with h0 | h1
    · rw [e, h0, channelStep_getD_other tanh exp2 _ _ _ _ _ (by decide : (1 : Nat) ≠ 0)]
      exact channelStep_getD_self tanh exp2 _ _ _ _ _ 0
    · rw [e, h1]
      exact channelStep_getD_self tanh exp2 _ _ _ _ _ 1

/-- Witness for C1: a stereo block with hot input, an active harmonizer and feedback 0.5. -/
theorem output_within_limit_witness :
    allWithin (-0.9) 0.9
      ((NoctaveAudioProcessor.processBlock tanhQ exp2Q
          (NoctaveAudioProcessor.new : NoctaveAudioProcessor ℚ) 2 2 [[3, -2], [1, 0.5]] 12 0.5 0.5 7).2.getD 1 []) :=
  (output_within_limit tanhQ exp2Q NoctaveAudioProcessor.new 2 2 [[3, -2], [1, 0.5]] PitchShifter.new [] 12 0.5 0.5 7).1
    1 (by decide)

/-- C2: starting from the state left by `prepare` (or by `reset` applied to any state), after
any sequence of `processBlock` calls and after any number `k` of samples of a further call,
`readPosition` and `writePosition` are both in `[0, maxDelaySamples)`; the voice after `k`
iterations of the sample loop is the one left by the call on the first `k` samples.  No bound
on the pitch-shift values is needed. -/
theorem cursors_stay_in_range (tanh exp2 : α → α) (ps0 : PitchShifter α) (sampleRate : α)
    (maxBlockSize : Int) (calls : List (List α × α × α × α)) (buffer : List α) (k : Nat)
    (pitchShiftSemitones mix feedback : α) :
    (((ps0.prepare sampleRate maxBlockSize).runBlocks tanh exp2 calls).processBlock tanh exp2
        (buffer.take k) pitchShiftSemitones mix feedback).1.voices.cursorsInRange ∧
    ((ps0.reset.runBlocks tanh exp2 calls).processBlock tanh exp2
        (buffer.take k) pitchShiftSemitones mix feedback).1.voices.cursorsInRange :=
  ⟨PitchShifter.processBlock_cursors tanh exp2 _ _ _ _ _
      (PitchShifter.runBlocks_cursors tanh exp2 calls _ (midpoint_cursors _)),
    PitchShifter.processBlock_cursors tanh exp2 _ _ _ _ _
      (PitchShifter.runBlocks_cursors tanh exp2 calls _ (midpoint_cursors _))⟩

/-- C4 as stated fails: with `mix = 0` and the input sample `x = 0.9` (so `|x| ≤ 0.9`) on a
freshly prepared voice, the true `tanh` and `2^x`, the block left by
`PitchShifter::processBlock` is not `[0.9 * x]`: `0.81` is above the soft-clip knee `0.8`. -/
theorem mix_zero_counterexample :
    |(0.9 : ℝ)| ≤ 0.9 ∧
    (PitchShifter.processBlock Real.tanh (fun x : ℝ => (2 : ℝ) ^ x)
        (PitchShifter.prepare PitchShifter.new 44100 512) [0.9] 0 0 0).2 ≠ [0.9 * 0.9] := by
  refine ⟨(abs_of_nonneg (by norm_num)).le, ?_⟩
  rw [PitchShifter.processBlock_cons]
  simp only [processSamples, processSample_out, mixOutput_mix_zero]
  rw [jlimit_eq_self (by norm_num) (le_refl _)]
  intro h
  have h1 := List.head_eq_of_cons_eq h
  have h2 : (0.81 : ℝ) < jlimit (-0.9) 0.9 (softClip Real.tanh 0.8 (0.9 * 0.9)) :=
    jlimit_gt softClip_real_knee (by norm_num)
  have h3 : (0.9 : ℝ) * 0.9 = 0.81 := by norm_num
  linarith

/-- C4 amended: for `PitchShifter::processBlock` with `mix = 0` and the true `tanh`, for every
prior state, pitch function, pitch shift, feedback and block, the returned block has the
length of the input and each of its samples is a function of its own input sample `x` alone,
`jlimit (-0.9, 0.9, softClip (jlimit (-0.9, 0.9, x) * 0.9))`, with no contribution from the
delay line or from the other samples.  That value is `0.9 * x` when `0.9 * |x| ≤ 0.8` (that
is `|x| ≤ 8/9`), and for every `x` with `8/9 < |x| ≤ 0.9` its magnitude is strictly larger than
`0.9 * |x|`, so it is not `0.9 * x`.  Both are restated for sample `k` of the block. -/
theorem mix_zero_dry_below_knee (exp2 : ℝ → ℝ) (ps : PitchShifter ℝ) (block : List ℝ)
    (pitchShiftSemitones feedback x : ℝ) (k : Nat) :
    (ps.processBlock Real.tanh exp2 block pitchShiftSemitones 0 feedback).2
      = block.map (fun x =>
          jlimit (-0.9) 0.9 (softClip Real.tanh 0.8 (jlimit (-0.9) 0.9 x * 0.9))) ∧
    (ps.processBlock Real.tanh exp2 block pitchShiftSemitones 0 feedback).2.length
      = block.length ∧
    (0.9 * |x| ≤ 0.8 →
      jlimit (-0.9) 0.9 (softClip Real.tanh 0.8 (jlimit (-0.9) 0.9 x * 0.9)) = 0.9 * x) ∧
    (0.8 < 0.9 * |x| → |x| ≤ 0.9 →
      0.9 * |x|
        < |jlimit (-0.9) 0.9 (softClip Real.tanh 0.8 (jlimit (-0.9) 0.9 x * 0.9))|) ∧
    (block[k]? = some x → 0.9 * |x| ≤ 0.8 →
      (ps.processBlock Real.tanh exp2 block pitchShiftSemitones 0 feedback).2[k]?
        = some (0.9 * x)) ∧
    (block[k]? = some x → 0.8 < 0.9 * |x| → |x| ≤ 0.9 →
      ∃ y, (ps.processBlock Real.tanh exp2 block pitchShiftSemitones 0 feedback).2[k]?
          = some y ∧ 0.9 * |x| < |y|) := by
  have hmap : (ps.processBlock Real.tanh exp2 block pitchShiftSemitones 0 feedback).2
      = block.map (fun x =>
          jlimit (-0.9) 0.9 (softClip Real.tanh 0.8 (jlimit (-0.9) 0.9 x * 0.9))) := by
    cases block with
    | nil => rfl
    | cons y ys =>
      rw [PitchShifter.processBlock_cons]
      exact processSamples_mix_zero_out Real.tanh _ _ (y :: ys) ps.voices
  have hlow : 0.9 * |x| ≤ 0.8 →
      jlimit (-0.9) 0.9 (softClip Real.tanh 0.8 (jlimit (-0.9) 0.9 x * 0.9)) = 0.9 * x := by
    intro h
    have hx : |x| ≤ 0.9 := by linarith
    rw [jlimit_eq_of_abs_le hx, ← mixOutput_mix_zero Real.tanh x 0]
    exact mixOutput_mix_zero_below_knee Real.tanh 0 h
  refine ⟨hmap, PitchShifter.processBlock_length Real.tanh exp2 ps block _ _ _, hlow,
    dry_above_knee x, ?_, ?_⟩
  · intro hk h
    rw [hmap, List.getElem?_map, hk, Option.map_some', hlow h]
  · intro hk h0 h1
    refine ⟨_, ?_, dry_above_knee x h0 h1⟩
    rw [hmap, List.getElem?_map, hk, Option.map_some']

/-- Witness for the amended C4: in the block `[0.9, 0.5]` the quiet second sample comes out as
`0.9 * 0.5` although the first sample is above the knee, and the first sample comes out with
magnitude above `0.9 * 0.9`. -/
theorem mix_zero_dry_below_knee_witness :
    (([0.9, 0.5] : List ℝ)[1]? = some (0.5 : ℝ) ∧ 0.9 * |(0.5 : ℝ)| ≤ 0.8 ∧
      (PitchShifter.processBlock Real.tanh (fun x : ℝ => (2 : ℝ) ^ x)
          (PitchShifter.prepare PitchShifter.new 44100 512) [0.9, 0.5] 12 0 (1 / 2)).2[1]?
        = some ((0.9 : ℝ) * 0.5)) ∧
    (([0.9, 0.5] : List ℝ)[0]? = some (0.9 : ℝ) ∧ 0.8 < 0.9 * |(0.9 : ℝ)| ∧ |(0.9 : ℝ)| ≤ 0.9 ∧
      ∃ y, (PitchShifter.processBlock Real.tanh (fun x : ℝ => (2 : ℝ) ^ x)
          (PitchShifter.prepare PitchShifter.new 44100 512) [0.9, 0.5] 12 0 (1 / 2)).2[0]?
          = some y ∧ 0.9 * |(0.9 : ℝ)| < |y|) :=
  have a1 : ([0.9, 0.5] : List ℝ)[1]? = some (0.5 : ℝ) := rfl
  have a2 : 0.9 * |(0.5 : ℝ)| ≤ 0.8 := by
    rw [abs_of_nonneg (by norm_num)]
    norm_num
  have b1 : ([0.9, 0.5] : List ℝ)[0]? = some (0.9 : ℝ) := rfl
  have b2 : 0.8 < 0.9 * |(0.9 : ℝ)| := by
    rw [abs_of_nonneg (by norm_num)]
    norm_num
  have b3 : |(0.9 : ℝ)| ≤ 0.9 := (abs_of_nonneg (by norm_num)).le
  ⟨⟨a1, a2,
      (mix_zero_dry_below_knee (fun x : ℝ => (2 : ℝ) ^ x)
        (PitchShifter.prepare PitchShifter.new 44100 512) [0.9, 0.5] 12 (1 / 2) 0.5
        1).2.2.2.2.1 a1 a2⟩,
    ⟨b1, b2, b3,
      (mix_zero_dry_below_knee (fun x : ℝ => (2 : ℝ) ^ x)
        (PitchShifter.prepare PitchShifter.new 44100 512) [0.9, 0.5] 12 (1 / 2) 0.9
        0).2.2.2.2.2 b1 b2 b3⟩⟩

/-- C6: after `releaseResources` (`reset` on every voice) from any processor state,
`NoctaveAudioProcessor::processBlock` on a buffer of all-zero samples leaves a buffer of
all-zero samples, for every channel layout and every pitch shift, mix, feedback and harmonizer
interval; likewise `PitchShifter::processBlock` after `reset` from any voice state. -/
theorem reset_then_silence (tanh exp2 : α → α) (p : NoctaveAudioProcessor α)
    (ps : PitchShifter α) (totalNumInputChannels totalNumOutputChannels numChannels
      numSamples : Nat) (pitchShift mix feedback harmonizerInterval : α) :
    (p.releaseResources.processBlock tanh exp2 totalNumInputChannels totalNumOutputChannels
        (List.replicate numChannels (List.replicate numSamples 0))
        pitchShift mix feedback harmonizerInterval).2
      = List.replicate numChannels (List.replicate numSamples 0) ∧
    (ps.reset.processBlock tanh exp2 (List.replicate numSamples 0) pitchShift mix feedback).2
      = List.replicate numSamples 0 := by
  constructor
  · unfold NoctaveAudioProcessor.processBlock
    simp only [clearUnusedChannels_silence]
    exact foldl_channelStep_silence tanh exp2 pitchShift mix feedback harmonizerInterval
      numChannels numSamples _ _ (NoctaveAudioProcessor.releaseResources_silent p)
  · exact (PitchShifter.processBlock_silence tanh exp2 ps.reset pitchShift mix feedback
      ps.voices.delayBuffer.length numSamples rfl).1

/-- C7 as stated fails: on a freshly prepared voice with pitch shift 0 (pitch ratio
`2^0 = 1`), `(writePosition - readPosition) mod capacity` after one processed sample differs
from its value after two processed samples. -/
theorem unison_distance_counterexample :
    modCapacity
        ((PitchShifter.processBlock Real.tanh (fun x : ℝ => (2 : ℝ) ^ x)
            (PitchShifter.prepare PitchShifter.new 44100 512) [0] 0 1 0).1.voices.writePosition
          - (PitchShifter.processBlock Real.tanh (fun x : ℝ => (2 : ℝ) ^ x)
            (PitchShifter.prepare PitchShifter.new 44100 512) [0] 0 1 0).1.voices.readPosition)
      ≠ modCapacity
        ((PitchShifter.processBlock Real.tanh (fun x : ℝ => (2 : ℝ) ^ x)
            (PitchShifter.prepare PitchShifter.new 44100 512) [0, 0] 0 1 0).1.voices.writePosition
          - (PitchShifter.processBlock Real.tanh (fun x : ℝ => (2 : ℝ) ^ x)
            (PitchShifter.prepare PitchShifter.new 44100 512) [0, 0] 0 1 0).1.voices.readPosition) := by
  have h0 : (fun x : ℝ => (2 : ℝ) ^ x) 0 = 1 := by simp
  have hn : ∀ n : Nat, (n : ℝ) < 10 → ∀ block : List ℝ, block.length = n →
      modCapacity
        ((PitchShifter.processBlock Real.tanh (fun x : ℝ => (2 : ℝ) ^ x)
            (PitchShifter.prepare PitchShifter.new 44100 512) block 0 1 0).1.voices.writePosition
          - (PitchShifter.processBlock Real.tanh (fun x : ℝ => (2 : ℝ) ^ x)
            (PitchShifter.prepare PitchShifter.new 44100 512) block 0 1 0).1.voices.readPosition)
        = 2 * (n : ℝ) := by
    intro n hn block hb
    obtain ⟨_, k, hk⟩ := PitchShifter.processBlock_unison Real.tanh (fun x : ℝ => (2 : ℝ) ^ x) h0
      (PitchShifter.prepare PitchShifter.new 44100 512) block 1 0 rfl
    rw [hk, modCapacity_add_int_mul, hb]
    have e : (PitchShifter.prepare (PitchShifter.new : PitchShifter ℝ) 44100 512).voices.writePosition
        - (PitchShifter.prepare (PitchShifter.new : PitchShifter ℝ) 44100 512).voices.readPosition
        = 0 := sub_self _
    rw [e, zero_add]
    refine modCapacity_eq_self (by positivity) ?_
    have : ((maxDelaySamples : ℕ) : ℝ) = 44100 := by norm_num [maxDelaySamples]
    rw [this]
    linarith
  rw [hn 1 (by norm_num) [0] rfl, hn 2 (by norm_num) [0, 0] rfl]
  norm_num

/-- C7 amended: with a pitch function satisfying `exp2 0 = 1` (true of `2^x`), from a freshly
prepared voice and over any sequence of calls that all pass pitch shift 0, the smoothed pitch
stays 0 and after `n` processed samples `(writePosition - readPosition) mod capacity` equals
`2 * n mod capacity`: the read cursor steps one cell back per sample while the write cursor
steps one cell forward, so the distance grows by 2 per sample instead of staying constant. -/
theorem unison_distance_grows (tanh exp2 : α → α) (h0 : exp2 0 = 1) (ps0 : PitchShifter α)
    (sampleRate : α) (maxBlockSize : Int) (calls : List (List α × α × α)) :
    ((ps0.prepare sampleRate maxBlockSize).runBlocks tanh exp2
        (calls.map (fun c => (c.1, 0, c.2.1, c.2.2)))).smoothedPitchShift = 0 ∧
    modCapacity
        (((ps0.prepare sampleRate maxBlockSize).runBlocks tanh exp2
            (calls.map (fun c => (c.1, 0, c.2.1, c.2.2)))).voices.writePosition
          - ((ps0.prepare sampleRate maxBlockSize).runBlocks tanh exp2
            (calls.map (fun c => (c.1, 0, c.2.1, c.2.2)))).voices.readPosition)
      = modCapacity (2 * (((calls.map (fun c => c.1.length)).sum : Nat) : α)) := by
  obtain ⟨a, k, hk⟩ := PitchShifter.runBlocks_unison tanh exp2 h0 calls
    (ps0.prepare sampleRate maxBlockSize) rfl
  refine ⟨a, ?_⟩
  rw [hk, modCapacity_add_int_mul]
  have e : (ps0.prepare sampleRate maxBlockSize).voices.writePosition
      - (ps0.prepare sampleRate maxBlockSize).voices.readPosition = 0 := sub_self _
  rw [e, zero_add]

/-- Witness for the amended C7: two calls of 2 and 1 samples at pitch shift 0. -/
theorem unison_distance_grows_witness :
    exp2Q 0 = 1 ∧
    ((PitchShifter.prepare (PitchShifter.new : PitchShifter ℚ) 48000 512).runBlocks tanhQ exp2Q
        ([([1 / 2, -1], 1, 1 / 4), ([3], 1 / 2, 0)].map
          (fun c => (c.1, 0, c.2.1, c.2.2)))).smoothedPitchShift = 0 ∧
    modCapacity
        (((PitchShifter.prepare (PitchShifter.new : PitchShifter ℚ) 48000 512).runBlocks tanhQ
            exp2Q ([([1 / 2, -1], 1, 1 / 4), ([3], 1 / 2, 0)].map
              (fun c => (c.1, 0, c.2.1, c.2.2)))).voices.writePosition
          - ((PitchShifter.prepare (PitchShifter.new : PitchShifter ℚ) 48000 512).runBlocks tanhQ
            exp2Q ([([1 / 2, -1], 1, 1 / 4), ([3], 1 / 2, 0)].map
              (fun c => (c.1, 0, c.2.1, c.2.2)))).voices.readPosition)
      = modCapacity (2 * ((([([1 / 2, -1], 1, 1 / 4), ([3], 1 / 2, 0)].map
          (fun c : List ℚ × ℚ × ℚ => c.1.length)).sum : Nat) : ℚ)) :=
  have h0 : exp2Q 0 = 1 := by
    unfold exp2Q
    simp
  ⟨h0, unison_distance_grows tanhQ exp2Q h0 PitchShifter.new 48000 512
    [([1 / 2, -1], 1, 1 / 4), ([3], 1 / 2, 0)]⟩

/-- C8 as stated fails: a block of `n = 2` samples with target `t = 12` from smoothed value
`s = 0` leaves the smoothed pitch different from `s * 0.995^2 + t * (1 - 0.995^2)`. -/
theorem smoothing_per_sample_counterexample :
    (PitchShifter.processBlock Real.tanh (fun x : ℝ => (2 : ℝ) ^ x)
        (PitchShifter.prepare PitchShifter.new 44100 512) [0, 0] 12 1 0).1.smoothedPitchShift
      ≠ 0 * (0.995 : ℝ) ^ 2 + 12 * (1 - (0.995 : ℝ) ^ 2) := by
  rw [PitchShifter.processBlock_cons]
  simp only [PitchShifter.prepare]
  norm_num

/-- C8 amended: the smoothing step and the ratio computation are executed once per non-empty
block, before the sample loop: after a block of `n ≥ 1` samples with target `t` from smoothed
value `s` the stored smoothed pitch is `s * 0.995 + t * 0.005` whatever `n` is, and all samples
of the block are processed with the one ratio `exp2 ((s * 0.995 + t * 0.005) / 12)`. -/
theorem smoothing_once_per_block (tanh exp2 : α → α) (ps : PitchShifter α) (x : α)
    (xs : List α) (t mix feedback : α) :
    (ps.processBlock tanh exp2 (x :: xs) t mix feedback).1.smoothedPitchShift
      = ps.smoothedPitchShift * 0.995 + t * 0.005 ∧
    ((ps.processBlock tanh exp2 (x :: xs) t mix feedback).1.voices,
        (ps.processBlock tanh exp2 (x :: xs) t mix feedback).2)
      = processSamples tanh (exp2 ((ps.smoothedPitchShift * 0.995 + t * 0.005) / 12)) mix
          (jlimit 0 0.5 feedback) ps.voices (x :: xs) := by
  have e : (1 - 0.995 : α) = 0.005 := by norm_num
  rw [PitchShifter.processBlock_cons, e]
  exact ⟨rfl, rfl⟩

/-- C9 as stated fails: after `prepare (48000, 512)` the delay line does not hold 48000
samples and the wrap modulus `maxDelaySamples` is not 48000. -/
theorem prepare_capacity_counterexample :
    (((PitchShifter.prepare (PitchShifter.new : PitchShifter ℝ) 48000
        512).voices.delayBuffer.length : ℕ) : ℝ) ≠ 48000 ∧
    ((maxDelaySamples : ℕ) : ℝ) ≠ 48000 := by
  constructor
  · simp only [PitchShifter.prepare, List.length_replicate]
    norm_num [maxDelaySamples]
  · norm_num [maxDelaySamples]

/-- C9 amended: after `prepare (sampleRate, maxBlockSize)` from any state the delay line holds
`maxDelaySamples = 44100` zero samples for every sample rate (one second of audio only at
44.1 kHz), both cursors are at `44100 / 2 = 22050`, the smoothed pitch is 0 and the sample rate
is only recorded in `currentSampleRate`. -/
theorem prepare_fixed_capacity (ps : PitchShifter α) (sampleRate : α) (maxBlockSize : Int) :
    (ps.prepare sampleRate maxBlockSize).voices.delayBuffer = List.replicate 44100 0 ∧
    (ps.prepare sampleRate maxBlockSize).voices.delayBuffer.length = maxDelaySamples ∧
    maxDelaySamples = 44100 ∧
    (ps.prepare sampleRate maxBlockSize).voices.writePosition = 22050 ∧
    (ps.prepare sampleRate maxBlockSize).voices.readPosition = 22050 ∧
    (ps.prepare sampleRate maxBlockSize).smoothedPitchShift = 0 ∧
    (ps.prepare sampleRate maxBlockSize).currentSampleRate = sampleRate := by
  refine ⟨rfl, ?_, rfl, ?_, ?_, rfl, rfl⟩
  · simp only [PitchShifter.prepare, List.length_replicate]
  · simp only [PitchShifter.prepare]
    norm_num [maxDelaySamples]
  · simp only [PitchShifter.prepare]
    norm_num [maxDelaySamples]

/-- C10: `PitchShifter::processBlock` called with feedback `f` returns the same block and the
same state as when called with `jlimit (0, 0.5, f)`, for every state, block, pitch shift and
mix; in particular every `f > 0.5` behaves as `0.5` and every `f < 0` behaves as `0`. -/
theorem feedback_clamped (tanh exp2 : α → α) (ps : PitchShifter α) (buffer : List α)
    (pitchShiftSemitones mix f : α) :
    ps.processBlock tanh exp2 buffer pitchShiftSemitones mix f
      = ps.processBlock tanh exp2 buffer pitchShiftSemitones mix (jlimit 0 0.5 f) ∧
    (0.5 < f →
      ps.processBlock tanh exp2 buffer pitchShiftSemitones mix f
        = ps.processBlock tanh exp2 buffer pitchShiftSemitones mix 0.5) ∧
    (f < 0 →
      ps.processBlock tanh exp2 buffer pitchShiftSemitones mix f
        = ps.processBlock tanh exp2 buffer pitchShiftSemitones mix 0) := by
  have h05 : (0 : α) ≤ 0.5 := by norm_num
  refine ⟨?_, fun hf => ?_, fun hf => ?_⟩
  · exact PitchShifter.processBlock_feedback_congr tanh exp2 ps buffer pitchShiftSemitones mix
      (jlimit_idem h05 f).symm
  · refine PitchShifter.processBlock_feedback_congr tanh exp2 ps buffer pitchShiftSemitones mix ?_
    rw [jlimit_eq_self h05 (le_refl _)]
    unfold jlimit
    rw [if_neg (not_lt.mpr (by linarith)), if_pos hf]
  · refine PitchShifter.processBlock_feedback_congr tanh exp2 ps buffer pitchShiftSemitones mix ?_
    rw [jlimit_eq_self (le_refl _) h05]
    unfold jlimit
    rw [if_pos hf]

/-- Witness for C10: feedback 2 behaves as 0.5 and feedback -1 behaves as 0. -/
theorem feedback_clamped_witness :
    ((0.5 : ℚ) < 2 ∧
      PitchShifter.processBlock tanhQ exp2Q (PitchShifter.prepare PitchShifter.new 44100 512)
          [1 / 2, -3, 1 / 4] 7 (1 / 2) 2
        = PitchShifter.processBlock tanhQ exp2Q (PitchShifter.prepare PitchShifter.new 44100 512)
          [1 / 2, -3, 1 / 4] 7 (1 / 2) 0.5) ∧
    ((-1 : ℚ) < 0 ∧
      PitchShifter.processBlock tanhQ exp2Q (PitchShifter.prepare PitchShifter.new 44100 512)
          [1 / 2, -3, 1 / 4] 7 (1 / 2) (-1)
        = PitchShifter.processBlock tanhQ exp2Q (PitchShifter.prepare PitchShifter.new 44100 512)
          [1 / 2, -3, 1 / 4] 7 (1 / 2) 0) :=
  ⟨⟨by norm_num,
      (feedback_clamped tanhQ exp2Q (PitchShifter.prepare PitchShifter.new 44100 512)
        [1 / 2, -3, 1 / 4] 7 (1 / 2) 2).2.1 (by norm_num)⟩,
    ⟨by norm_num,
      (feedback_clamped tanhQ exp2Q (PitchShifter.prepare PitchShifter.new 44100 512)
        [1 / 2, -3, 1 / 4] 7 (1 / 2) (-1)).2.2 (by norm_num)⟩⟩

/-- C11: with the harmonizer active (`|h| > 0.1`) every processed channel (index below
`min totalNumInputChannels 2`) of the buffer returned by `NoctaveAudioProcessor::processBlock`
is, sample by sample, `jlimit (-0.9, 0.9, softClip ((jlimit (-0.85, 0.85, main) * 0.6 +
jlimit (-0.85, 0.85, harmony) * 0.4) * (1 - mix * 0.1)))`, where `main` is the block of the
channel's shift voice and `harmony` is the block of the channel's harmony voice run on the
channel's original input with pitch `h`, mix 1 and feedback 0; the written block and the two
voice blocks have the length of the channel's input; the harmony voice stored for the channel
is the one left by that run, whatever the user's pitch shift, mix and feedback are.  The same
is stated for the channel body `processChannel`. -/
theorem harmony_mix_formula (tanh exp2 : α → α) (p : NoctaveAudioProcessor α)
    (totalNumInputChannels totalNumOutputChannels : Nat) (buffer : List (List α))
    (shifter harmonizer : PitchShifter α)
    (channelSamples : List α) (pitchShift mix feedback h pitchShift2 mix2 feedback2 : α)
    (channel : Nat) (hc : channel < min totalNumInputChannels 2) (hh : 0.1 < |h|) :
    ((p.processBlock tanh exp2 totalNumInputChannels totalNumOutputChannels buffer
          pitchShift mix feedback h).2.getD channel []
        = List.zipWith
            (fun main harmony =>
              jlimit (-0.9) 0.9 (softClip tanh 0.8
                ((jlimit (-0.85) 0.85 main * 0.6 + jlimit (-0.85) 0.85 harmony * 0.4)
                  * (1 - mix * 0.1))))
            ((getAt p.pitchShifters channel).processBlock tanh exp2
              (buffer.getD channel []) pitchShift mix feedback).2
            ((getAt p.harmonizers channel).processBlock tanh exp2
              (buffer.getD channel []) h 1 0).2 ∧
      ((p.processBlock tanh exp2 totalNumInputChannels totalNumOutputChannels buffer
          pitchShift mix feedback h).2.getD channel []).length
        = (buffer.getD channel []).length ∧
      ((getAt p.pitchShifters channel).processBlock tanh exp2
          (buffer.getD channel []) pitchShift mix feedback).2.length
        = (buffer.getD channel []).length ∧
      ((getAt p.harmonizers channel).processBlock tanh exp2
          (buffer.getD channel []) h 1 0).2.length
        = (buffer.getD channel []).length ∧
      getAt (p.processBlock tanh exp2 totalNumInputChannels totalNumOutputChannels buffer
          pitchShift mix feedback h).1.harmonizers channel
        = ((getAt p.harmonizers channel).processBlock tanh exp2
            (buffer.getD channel []) h 1 0).1 ∧
      getAt (p.processBlock tanh exp2 totalNumInputChannels totalNumOutputChannels buffer
          pitchShift2 mix2 feedback2 h).1.harmonizers channel
        = getAt (p.processBlock tanh exp2 totalNumInputChannels totalNumOutputChannels buffer
          pitchShift mix feedback h).1.harmonizers channel) ∧
    (processChannel tanh exp2 shifter harmonizer channelSamples pitchShift mix feedback h).2.2
      = List.zipWith
          (fun main harmony =>
            jlimit (-0.9) 0.9 (softClip tanh 0.8
              ((jlimit (-0.85) 0.85 main * 0.6 + jlimit (-0.85) 0.85 harmony * 0.4)
                * (1 - mix * 0.1))))
          (shifter.processBlock tanh exp2 channelSamples pitchShift mix feedback).2
          (harmonizer.processBlock tanh exp2 channelSamples h 1 0).2 ∧
    (processChannel tanh exp2 shifter harmonizer channelSamples pitchShift mix feedback
        h).2.2.length = channelSamples.length ∧
    (shifter.processBlock tanh exp2 channelSamples pitchShift mix feedback).2.length
      = channelSamples.length ∧
    (harmonizer.processBlock tanh exp2 channelSamples h 1 0).2.length
      = channelSamples.length ∧
    (processChannel tanh exp2 shifter harmonizer channelSamples pitchShift mix feedback h).2.1
      = (harmonizer.processBlock tanh exp2 channelSamples h 1 0).1 ∧
    (processChannel tanh exp2 shifter harmonizer channelSamples pitchShift2 mix2 feedback2
        h).2.1
      = (processChannel tanh exp2 shifter harmonizer channelSamples pitchShift mix feedback
        h).2.1 := by
  have e1 := processChannel_active tanh exp2 shifter harmonizer channelSamples pitchShift mix
    feedback h hh
  have e2 := processChannel_active tanh exp2 shifter harmonizer channelSamples pitchShift2 mix2
    feedback2 h hh
  have l1 := PitchShifter.processBlock_length tanh exp2 shifter channelSamples pitchShift mix
    feedback
  have l2 := PitchShifter.processBlock_length tanh exp2 harmonizer channelSamples h 1 0
  have m1 := PitchShifter.processBlock_length tanh exp2 (getAt p.pitchShifters channel)
    (buffer.getD channel []) pitchShift mix feedback
  have m2 := PitchShifter.processBlock_length tanh exp2 (getAt p.harmonizers channel)
    (buffer.getD channel []) h 1 0
  obtain ⟨a, _, c⟩ := processBlock_channel tanh exp2 p totalNumInputChannels
    totalNumOutputChannels buffer pitchShift mix feedback h channel hc
  obtain ⟨_, _, c2⟩ := processBlock_channel tanh exp2 p totalNumInputChannels
    totalNumOutputChannels buffer pitchShift2 mix2 feedback2 h channel hc
  rw [processChannel_active tanh exp2 _ _ _ _ _ _ _ hh] at a c c2
  refine ⟨⟨?_, ?_, m1, m2, c, ?_⟩, ?_, ?_, l1, l2, ?_, ?_⟩
  · rw [a]
    rfl
  · rw [a]
    simp only [List.length_zipWith, m1, m2, min_self]
  · rw [c, c2]
  · rw [e1]
    rfl
  · rw [e1]
    simp only [List.length_zipWith, l1, l2, min_self]
  · rw [e1]
  · rw [e1, e2]

/-- Witness for C11: an active interval `h = 7` on channel 1 of a stereo buffer, from a freshly
constructed processor. -/
theorem harmony_mix_formula_witness :
    1 < min 2 2 ∧ (0.1 : ℚ) < |(7 : ℚ)| ∧
    (NoctaveAudioProcessor.new.processBlock tanhQ exp2Q 2 2 [[3, -2], [1, 0.5]]
        12 0.5 0.5 (7 : ℚ)).2.getD 1 []
      = List.zipWith
          (fun main harmony =>
            jlimit (-0.9) 0.9 (softClip tanhQ 0.8
              ((jlimit (-0.85) 0.85 main * 0.6 + jlimit (-0.85) 0.85 harmony * 0.4)
                * (1 - 0.5 * 0.1))))
          ((getAt (NoctaveAudioProcessor.new : NoctaveAudioProcessor ℚ).pitchShifters
            1).processBlock tanhQ exp2Q (([[3, -2], [1, 0.5]] : List (List ℚ)).getD 1 [])
            12 0.5 0.5).2
          ((getAt (NoctaveAudioProcessor.new : NoctaveAudioProcessor ℚ).harmonizers
            1).processBlock tanhQ exp2Q (([[3, -2], [1, 0.5]] : List (List ℚ)).getD 1 [])
            7 1 0).2 :=
  ⟨by decide, by norm_num,
    (harmony_mix_formula tanhQ exp2Q NoctaveAudioProcessor.new 2 2 [[3, -2], [1, 0.5]]
      PitchShifter.new PitchShifter.new [3, -2] 12 0.5 0.5 7 0 0 0 1 (by decide)
      (by norm_num)).1.1⟩

/-- C12: on every bus layout that `isBusesLayoutSupported` accepts in an effect build (not a
MIDI effect, not a synth: main output equal to main input, mono or stereo), with the channel
counts of that layout, `NoctaveAudioProcessor::processBlock` leaves every channel with index
at or above `min totalNumInputChannels 2` with the same samples as before the call, for every
buffer and parameter snapshot (the loop over unused output channels is empty), and each
channel below that bound receives the result of the channel body on its own samples and
voices.  The processor declares one input bus and one output bus, so the two channel counts
are the sizes of the main channel sets. -/
theorem unprocessed_channels_untouched (tanh exp2 : α → α) (p : NoctaveAudioProcessor α)
    (mainInput mainOutput : AudioChannelSet) (buffer : List (List α))
    (pitchShift mix feedback harmonizerInterval : α) (c d : Nat)
    (hl : isBusesLayoutSupported false false mainInput mainOutput = true)
    (hc : min mainInput.size 2 ≤ c) (hd : d < min mainInput.size 2) :
    mainOutput.size = mainInput.size ∧
    (p.processBlock tanh exp2 mainInput.size mainOutput.size buffer
        pitchShift mix feedback harmonizerInterval).2.getD c [] = buffer.getD c [] ∧
    (p.processBlock tanh exp2 mainInput.size mainOutput.size buffer
        pitchShift mix feedback harmonizerInterval).2.getD d []
      = (processChannel tanh exp2 (getAt p.pitchShifters d) (getAt p.harmonizers d)
          (buffer.getD d []) pitchShift mix feedback harmonizerInterval).2.2 := by
  obtain ⟨he, _⟩ := isBusesLayoutSupported_effect hl
  have hs : mainOutput.size = mainInput.size := by rw [he]
  refine ⟨hs, ?_, ?_⟩
  · refine (processBlock_frame_general tanh exp2 p mainInput.size mainOutput.size buffer
      pitchShift mix feedback harmonizerInterval c hc).1 ?_
    omega
  · exact (processBlock_channel tanh exp2 p mainInput.size mainOutput.size buffer
      pitchShift mix feedback harmonizerInterval d hd).1

/-- Witness for C12: the stereo layout on a buffer of three channels; channel 2 is kept and
channel 1 is processed. -/
theorem unprocessed_channels_untouched_witness :
    isBusesLayoutSupported false false AudioChannelSet.stereo AudioChannelSet.stereo = true ∧
    min AudioChannelSet.stereo.size 2 ≤ 2 ∧ 1 < min AudioChannelSet.stereo.size 2 ∧
    (NoctaveAudioProcessor.new.processBlock tanhQ exp2Q AudioChannelSet.stereo.size
        AudioChannelSet.stereo.size [[1, 2], [3, 4], [5, 6]] 12 0.5 0.5 7).2.getD 2 []
      = ([[1, 2], [3, 4], [5, 6]] : List (List ℚ)).getD 2 [] :=
  ⟨by decide, by decide, by decide,
    (unprocessed_channels_untouched tanhQ exp2Q NoctaveAudioProcessor.new
      AudioChannelSet.stereo AudioChannelSet.stereo [[1, 2], [3, 4], [5, 6]] 12 0.5 0.5 7 2 1
      (by decide) (by decide) (by decide)).2.1⟩

/-- C14: for a wrapped read position `r` in `[0, capacity)` and a write position `w` in
`[0, capacity)` on a delay line of `capacity` cells: `i = static_cast<int> (r)` is `⌊r⌋` and
lies in `[0, capacity)`; `(i + 1) % capacity` lies in `[0, capacity)` and is 0 when
`i = capacity - 1`; `frac = r - i` lies in `[0, 1)`; the write index lies in `[0, capacity)`;
all three indices address cells of the buffer; and the interpolated read
`buf[i] + frac * (buf[(i + 1) % capacity] - buf[i])` lies between the two cells. -/
theorem interpolated_read_in_bounds (delayBuffer : List α) (r w : α)
    (hlen : delayBuffer.length = maxDelaySamples)
    (hr0 : 0 ≤ r) (hr1 : r < (maxDelaySamples : α))
    (hw0 : 0 ≤ w) (hw1 : w < (maxDelaySamples : α)) :
    truncToInt r = ⌊r⌋ ∧
    (0 ≤ truncToInt r ∧ truncToInt r < (maxDelaySamples : ℤ)) ∧
    (0 ≤ (truncToInt r + 1).tmod (maxDelaySamples : ℤ) ∧
      (truncToInt r + 1).tmod (maxDelaySamples : ℤ) < (maxDelaySamples : ℤ)) ∧
    (truncToInt r = (maxDelaySamples : ℤ) - 1 →
      (truncToInt r + 1).tmod (maxDelaySamples : ℤ) = 0) ∧
    (0 ≤ r - (truncToInt r : α) ∧ r - (truncToInt r : α) < 1) ∧
    (0 ≤ truncToInt w ∧ truncToInt w < (maxDelaySamples : ℤ)) ∧
    ((truncToInt r).toNat < delayBuffer.length ∧
      ((truncToInt r + 1).tmod (maxDelaySamples : ℤ)).toNat < delayBuffer.length ∧
      (truncToInt w).toNat < delayBuffer.length) ∧
    readDelayed delayBuffer r
      = getSample delayBuffer (truncToInt r)
        + (r - (truncToInt r : α))
          * (getSample delayBuffer ((truncToInt r + 1).tmod (maxDelaySamples : ℤ))
            - getSample delayBuffer (truncToInt r)) ∧
    min (getSample delayBuffer (truncToInt r))
        (getSample delayBuffer ((truncToInt r + 1).tmod (maxDelaySamples : ℤ)))
      ≤ readDelayed delayBuffer r ∧
    readDelayed delayBuffer r
      ≤ max (getSample delayBuffer (truncToInt r))
        (getSample delayBuffer ((truncToInt r + 1).tmod (maxDelaySamples : ℤ))) := by
  obtain ⟨hi0, hi1⟩ := truncToInt_bounds hr0 hr1
  obtain ⟨hj0, hj1⟩ := truncToInt_bounds hw0 hw1
  obtain ⟨hn, hn0, hn1⟩ := readPosNext_bounds hi0
  obtain ⟨hf0, hf1⟩ := truncToInt_frac hr0
  have hb :
      min (getSample delayBuffer (truncToInt r))
          (getSample delayBuffer ((truncToInt r + 1).tmod (maxDelaySamples : ℤ)))
        ≤ getSample delayBuffer (truncToInt r)
          + (r - (truncToInt r : α))
            * (getSample delayBuffer ((truncToInt r + 1).tmod (maxDelaySamples : ℤ))
              - getSample delayBuffer (truncToInt r)) ∧
      getSample delayBuffer (truncToInt r)
          + (r - (truncToInt r : α))
            * (getSample delayBuffer ((truncToInt r + 1).tmod (maxDelaySamples : ℤ))
              - getSample delayBuffer (truncToInt r))
        ≤ max (getSample delayBuffer (truncToInt r))
          (getSample delayBuffer ((truncToInt r + 1).tmod (maxDelaySamples : ℤ))) :=
    lerp_between hf0 hf1.le
  refine ⟨truncToInt_of_nonneg hr0, ⟨hi0, hi1⟩, ⟨hn0, hn1⟩, ?_, ⟨hf0, hf1⟩, ⟨hj0, hj1⟩,
    ⟨?_, ?_, ?_⟩, readDelayed_eq _ _, ?_, ?_⟩
  · intro h
    rw [hn, h]
    simp
  · rw [hlen]
    omega
  · rw [hlen]
    omega
  · rw [hlen]
    omega
  · rw [readDelayed_eq]
    exact hb.1
  · rw [readDelayed_eq]
    exact hb.2

/-- Witness for C14: the read position `44099.5` in the last cell, whose successor is cell 0,
and the write position `22050` on a zero-filled delay line. -/
theorem interpolated_read_in_bounds_witness :
    (List.replicate maxDelaySamples (0 : ℚ)).length = maxDelaySamples ∧
    (0 : ℚ) ≤ 44099.5 ∧ (44099.5 : ℚ) < (maxDelaySamples : ℚ) ∧
    (0 : ℚ) ≤ 22050 ∧ (22050 : ℚ) < (maxDelaySamples : ℚ) ∧
    truncToInt (44099.5 : ℚ) = ⌊(44099.5 : ℚ)⌋ ∧
    (0 ≤ truncToInt (44099.5 : ℚ) ∧ truncToInt (44099.5 : ℚ) < (maxDelaySamples : ℤ)) ∧
    (0 ≤ (truncToInt (44099.5 : ℚ) + 1).tmod (maxDelaySamples : ℤ) ∧
      (truncToInt (44099.5 : ℚ) + 1).tmod (maxDelaySamples : ℤ) < (maxDelaySamples : ℤ)) :=
  have hl : (List.replicate maxDelaySamples (0 : ℚ)).length = maxDelaySamples :=
    List.length_replicate _ _
  have h1 : (0 : ℚ) ≤ 44099.5 := by norm_num
  have h2 : (44099.5 : ℚ) < (maxDelaySamples : ℚ) := by norm_num [maxDelaySamples]
  have h3 : (0 : ℚ) ≤ 22050 := by norm_num
  have h4 : (22050 : ℚ) < (maxDelaySamples : ℚ) := by norm_num [maxDelaySamples]
  have h := interpolated_read_in_bounds (List.replicate maxDelaySamples (0 : ℚ)) 44099.5 22050
    hl h1 h2 h3 h4
  ⟨hl, h1, h2, h3, h4, h.1, h.2.1, h.2.2.1⟩

/-- C15: with `feedback` clamped to `[0, 0.5]` the loop gain `g = feedback * 0.75` lies in
`[0, 0.375]` and the feedback contribution is `clampedOutput * g`; when the input sample is 0
the value written into the delay line has magnitude at most `0.375` times the largest
magnitude stored in the delay line, and that peak magnitude does not increase over one sample
nor over a whole block of zero samples. -/
theorem regeneration_decays (tanh exp2 : α → α) (voice : Voice α) (ps : PitchShifter α)
    (pitchRatio pitchShiftSemitones mix f : α) (n : Nat) :
    (0 ≤ jlimit 0 0.5 f * 0.75 ∧ jlimit 0 0.5 f * 0.75 ≤ 0.375) ∧
    jlimit (-0.85) 0.85 (readDelayed voice.delayBuffer
        (wrapAbove (wrapBelow (voice.readPosition - pitchRatio)))) * jlimit 0 0.5 f * 0.75
      = jlimit (-0.85) 0.85 (readDelayed voice.delayBuffer
        (wrapAbove (wrapBelow (voice.readPosition - pitchRatio))))
          * (jlimit 0 0.5 f * 0.75) ∧
    (processSample tanh pitchRatio mix (jlimit 0 0.5 f) voice 0).1.delayBuffer
      = setSample voice.delayBuffer (truncToInt voice.writePosition)
          (jlimit (-0.85) 0.85
            (0 + jlimit (-0.85) 0.85 (readDelayed voice.delayBuffer
                (wrapAbove (wrapBelow (voice.readPosition - pitchRatio))))
              * jlimit 0 0.5 f * 0.75)) ∧
    |jlimit (-0.85) 0.85
        (0 + jlimit (-0.85) 0.85 (readDelayed voice.delayBuffer
            (wrapAbove (wrapBelow (voice.readPosition - pitchRatio))))
          * jlimit 0 0.5 f * 0.75)|
      ≤ 0.375 * peakMagnitude voice.delayBuffer ∧
    peakMagnitude (processSample tanh pitchRatio mix (jlimit 0 0.5 f) voice 0).1.delayBuffer
      ≤ peakMagnitude voice.delayBuffer ∧
    peakMagnitude (ps.processBlock tanh exp2 (List.replicate n 0) pitchShiftSemitones mix
        f).1.voices.delayBuffer
      ≤ peakMagnitude ps.voices.delayBuffer := by
  refine ⟨feedback_gain_bounds f, mul_assoc _ _ _, ?_,
    silent_write_le _ _ f (wrapAbove_nonneg _ (wrapBelow_nonneg _)),
    processSample_silent_peak tanh pitchRatio mix f voice,
    PitchShifter.processBlock_silent_peak tanh exp2 ps n pitchShiftSemitones mix f⟩
  rw [processSample_delayBuffer, jlimit_zero (by norm_num) (by norm_num)]

/-- C16: in `PitchShifter::processBlock` with `mix` in `[0, 1]` and the true `tanh`, for every
voice state, pitch ratio, feedback and input sample, the dry/wet mix before clipping has
magnitude at most `0.81`, the value produced by the soft-clip stage lies in `[-0.9, 0.9]`, the
final `jlimit (-0.9, 0.9, ·)` returns it unchanged, and it is the sample stored in the block. -/
theorem hard_limit_is_noop (voice : Voice ℝ) (pitchRatio mix feedback input : ℝ)
    (hm0 : 0 ≤ mix) (hm1 : mix ≤ 1) :
    |jlimit (-0.9) 0.9 input * ((1 - mix) * 0.9)
        + jlimit (-0.85) 0.85 (readDelayed voice.delayBuffer
            (wrapAbove (wrapBelow (voice.readPosition - pitchRatio))))
          * (mix * 0.85 * (1 - mix * 0.15))| ≤ 0.81 ∧
    (-0.9 ≤ softClip Real.tanh 0.8
        (jlimit (-0.9) 0.9 input * ((1 - mix) * 0.9)
          + jlimit (-0.85) 0.85 (readDelayed voice.delayBuffer
              (wrapAbove (wrapBelow (voice.readPosition - pitchRatio))))
            * (mix * 0.85 * (1 - mix * 0.15))) ∧
      softClip Real.tanh 0.8
        (jlimit (-0.9) 0.9 input * ((1 - mix) * 0.9)
          + jlimit (-0.85) 0.85 (readDelayed voice.delayBuffer
              (wrapAbove (wrapBelow (voice.readPosition - pitchRatio))))
            * (mix * 0.85 * (1 - mix * 0.15))) ≤ 0.9) ∧
    jlimit (-0.9) 0.9 (softClip Real.tanh 0.8
        (jlimit (-0.9) 0.9 input * ((1 - mix) * 0.9)
          + jlimit (-0.85) 0.85 (readDelayed voice.delayBuffer
              (wrapAbove (wrapBelow (voice.readPosition - pitchRatio))))
            * (mix * 0.85 * (1 - mix * 0.15))))
      = softClip Real.tanh 0.8
        (jlimit (-0.9) 0.9 input * ((1 - mix) * 0.9)
          + jlimit (-0.85) 0.85 (readDelayed voice.delayBuffer
              (wrapAbove (wrapBelow (voice.readPosition - pitchRatio))))
            * (mix * 0.85 * (1 - mix * 0.15))) ∧
    (processSample Real.tanh pitchRatio mix feedback voice input).2
      = softClip Real.tanh 0.8
        (jlimit (-0.9) 0.9 input * ((1 - mix) * 0.9)
          + jlimit (-0.85) 0.85 (readDelayed voice.delayBuffer
              (wrapAbove (wrapBelow (voice.readPosition - pitchRatio))))
            * (mix * 0.85 * (1 - mix * 0.15))) := by
  have hpre := preclip_abs_le (jlimit_abs_le (by norm_num : (0 : ℝ) ≤ 0.9) input)
    (jlimit_abs_le (by norm_num : (0 : ℝ) ≤ 0.85) (readDelayed voice.delayBuffer
      (wrapAbove (wrapBelow (voice.readPosition - pitchRatio))))) hm0 hm1
  have hsoft := softClip_abs_le Real.tanh real_tanh_small hpre
  have hnoop := jlimit_eq_of_abs_le hsoft
  refine ⟨hpre, abs_le.mp hsoft, hnoop, ?_⟩
  rw [processSample_out, mixOutput_eq, hnoop]

/-- Witness for C16: `mix = 1/2` with a hot input sample on a freshly prepared voice. -/
theorem hard_limit_is_noop_witness :
    (0 : ℝ) ≤ 1 / 2 ∧ (1 / 2 : ℝ) ≤ 1 ∧
    (processSample Real.tanh 1 (1 / 2) 0
        (PitchShifter.prepare (PitchShifter.new : PitchShifter ℝ) 44100 512).voices 3).2
      = softClip Real.tanh 0.8
        (jlimit (-0.9) 0.9 3 * ((1 - 1 / 2) * 0.9)
          + jlimit (-0.85) 0.85 (readDelayed
              (PitchShifter.prepare (PitchShifter.new : PitchShifter ℝ) 44100
                512).voices.delayBuffer
              (wrapAbove (wrapBelow
                ((PitchShifter.prepare (PitchShifter.new : PitchShifter ℝ) 44100
                  512).voices.readPosition - 1))))
            * (1 / 2 * 0.85 * (1 - 1 / 2 * 0.15))) :=
  ⟨by norm_num, by norm_num,
    (hard_limit_is_noop
      (PitchShifter.prepare (PitchShifter.new : PitchShifter ℝ) 44100 512).voices 1 (1 / 2) 0 3
      (by norm_num) (by norm_num)).2.2.2⟩

/-- C17: starting from the state left by `prepare`, if the pitch-shift target of every call is
in `[-24, 24]`, then after every call the smoothed pitch lies between its previous value and
the target of that call, lies in `[-24, 24]`, and the pitch ratio `2 ^ (smoothed / 12)` lies in
`[1/4, 4]` and is strictly positive. -/
theorem smoothed_pitch_bounded (ps0 : PitchShifter ℝ) (sampleRate : ℝ) (maxBlockSize : Int)
    (calls : List (List ℝ × ℝ × ℝ × ℝ)) (buffer : List ℝ) (t mix feedback : ℝ)
    (hcalls : ∀ c ∈ calls, -24 ≤ c.2.1 ∧ c.2.1 ≤ 24) (ht : -24 ≤ t ∧ t ≤ 24) :
    (min ((ps0.prepare sampleRate maxBlockSize).runBlocks Real.tanh
          (fun x : ℝ => (2 : ℝ) ^ x) calls).smoothedPitchShift t
        ≤ (((ps0.prepare sampleRate maxBlockSize).runBlocks Real.tanh
            (fun x : ℝ => (2 : ℝ) ^ x) calls).processBlock Real.tanh
            (fun x : ℝ => (2 : ℝ) ^ x) buffer t mix feedback).1.smoothedPitchShift ∧
      (((ps0.prepare sampleRate maxBlockSize).runBlocks Real.tanh
            (fun x : ℝ => (2 : ℝ) ^ x) calls).processBlock Real.tanh
            (fun x : ℝ => (2 : ℝ) ^ x) buffer t mix feedback).1.smoothedPitchShift
        ≤ max ((ps0.prepare sampleRate maxBlockSize).runBlocks Real.tanh
          (fun x : ℝ => (2 : ℝ) ^ x) calls).smoothedPitchShift t) ∧
    (-24 ≤ (((ps0.prepare sampleRate maxBlockSize).runBlocks Real.tanh
            (fun x : ℝ => (2 : ℝ) ^ x) calls).processBlock Real.tanh
            (fun x : ℝ => (2 : ℝ) ^ x) buffer t mix feedback).1.smoothedPitchShift ∧
      (((ps0.prepare sampleRate maxBlockSize).runBlocks Real.tanh
            (fun x : ℝ => (2 : ℝ) ^ x) calls).processBlock Real.tanh
            (fun x : ℝ => (2 : ℝ) ^ x) buffer t mix feedback).1.smoothedPitchShift ≤ 24) ∧
    ((1 / 4 : ℝ) ≤ (2 : ℝ) ^
        ((((ps0.prepare sampleRate maxBlockSize).runBlocks Real.tanh
            (fun x : ℝ => (2 : ℝ) ^ x) calls).processBlock Real.tanh
            (fun x : ℝ => (2 : ℝ) ^ x) buffer t mix feedback).1.smoothedPitchShift / 12) ∧
      (2 : ℝ) ^
        ((((ps0.prepare sampleRate maxBlockSize).runBlocks Real.tanh
            (fun x : ℝ => (2 : ℝ) ^ x) calls).processBlock Real.tanh
            (fun x : ℝ => (2 : ℝ) ^ x) buffer t mix feedback).1.smoothedPitchShift / 12) ≤ 4 ∧
      0 < (2 : ℝ) ^
        ((((ps0.prepare sampleRate maxBlockSize).runBlocks Real.tanh
            (fun x : ℝ => (2 : ℝ) ^ x) calls).processBlock Real.tanh
            (fun x : ℝ => (2 : ℝ) ^ x) buffer t mix feedback).1.smoothedPitchShift / 12)) := by
  have h0 : -24 ≤ (ps0.prepare sampleRate maxBlockSize).smoothedPitchShift ∧
      (ps0.prepare sampleRate maxBlockSize).smoothedPitchShift ≤ 24 := by
    simp only [PitchShifter.prepare]
    constructor <;> norm_num
  have hs := PitchShifter.runBlocks_smoothed_range Real.tanh (fun x : ℝ => (2 : ℝ) ^ x) calls
    (ps0.prepare sampleRate maxBlockSize) h0 hcalls
  have hr := PitchShifter.processBlock_smoothed_range Real.tanh (fun x : ℝ => (2 : ℝ) ^ x)
    ((ps0.prepare sampleRate maxBlockSize).runBlocks Real.tanh (fun x : ℝ => (2 : ℝ) ^ x) calls)
    buffer t mix feedback hs ht
  exact ⟨PitchShifter.processBlock_smoothed_between Real.tanh (fun x : ℝ => (2 : ℝ) ^ x) _
    buffer t mix feedback, hr, real_exp2_bounds _ hr.1 hr.2⟩

/-- Witness for C17: two earlier calls with targets 12 and -24, then a call with target 24. -/
theorem smoothed_pitch_bounded_witness :
    (∀ c ∈ ([([0, 0], 12, 1, 0), ([1], -24, 1 / 2, 1 / 5)] : List (List ℝ × ℝ × ℝ × ℝ)),
      -24 ≤ c.2.1 ∧ c.2.1 ≤ 24) ∧
    ((-24 : ℝ) ≤ 24 ∧ (24 : ℝ) ≤ 24) ∧
    (-24 ≤ (((PitchShifter.prepare (PitchShifter.new : PitchShifter ℝ) 44100 512).runBlocks
            Real.tanh (fun x : ℝ => (2 : ℝ) ^ x)
            [([0, 0], 12, 1, 0), ([1], -24, 1 / 2, 1 / 5)]).processBlock Real.tanh
            (fun x : ℝ => (2 : ℝ) ^ x) [1 / 2] 24 1 0).1.smoothedPitchShift ∧
      (((PitchShifter.prepare (PitchShifter.new : PitchShifter ℝ) 44100 512).runBlocks
            Real.tanh (fun x : ℝ => (2 : ℝ) ^ x)
            [([0, 0], 12, 1, 0), ([1], -24, 1 / 2, 1 / 5)]).processBlock Real.tanh
            (fun x : ℝ => (2 : ℝ) ^ x) [1 / 2] 24 1 0).1.smoothedPitchShift ≤ 24) :=
  have hc : ∀ c ∈ ([([0, 0], 12, 1, 0), ([1], -24, 1 / 2, 1 / 5)] : List (List ℝ × ℝ × ℝ × ℝ)),
      -24 ≤ c.2.1 ∧ c.2.1 ≤ 24 := by
    intro c hc
    simp only [List.mem_cons, List.mem_singleton, List.not_mem_nil, or_false] at hc
    rcases hc with rfl | rfl
    · constructor <;> norm_num
    · constructor <;> norm_num
  have ht : (-24 : ℝ) ≤ 24 ∧ (24 : ℝ) ≤ 24 := ⟨by norm_num, le_refl _⟩
  ⟨hc, ht,
    (smoothed_pitch_bounded PitchShifter.new 44100 512
      [([0, 0], 12, 1, 0), ([1], -24, 1 / 2, 1 / 5)] [1 / 2] 24 1 0 hc ht).2.1⟩

/-- C18: every cell of a voice's delay line is in `[-0.85, 0.85]`.  This holds after the
constructor, `prepare` and `reset`, after any sequence of `processBlock` calls from those
states, and is preserved by `PitchShifter::processBlock` for every input and parameter value;
under it the interpolated read at the wrapped read cursor is in `[-0.85, 0.85]`, so
`jlimit (-0.85, 0.85, delayed)` returns `delayed` unchanged. -/
theorem delay_cells_bounded (tanh exp2 : α → α) (ps : PitchShifter α) (sampleRate : α)
    (maxBlockSize : Int) (calls : List (List α × α × α × α)) (buffer : List α)
    (pitchShiftSemitones mix feedback pitchRatio : α)
    (h : allWithin (-0.85) 0.85 ps.voices.delayBuffer) :
    (allWithin (-0.85) 0.85 (PitchShifter.new : PitchShifter α).voices.delayBuffer ∧
      allWithin (-0.85) 0.85 (ps.prepare sampleRate maxBlockSize).voices.delayBuffer ∧
      allWithin (-0.85) 0.85 ps.reset.voices.delayBuffer) ∧
    (allWithin (-0.85) 0.85
        ((PitchShifter.new : PitchShifter α).runBlocks tanh exp2 calls).voices.delayBuffer ∧
      allWithin (-0.85) 0.85
        ((ps.prepare sampleRate maxBlockSize).runBlocks tanh exp2 calls).voices.delayBuffer ∧
      allWithin (-0.85) 0.85 (ps.reset.runBlocks tanh exp2 calls).voices.delayBuffer) ∧
    allWithin (-0.85) 0.85
      (ps.processBlock tanh exp2 buffer pitchShiftSemitones mix feedback).1.voices.delayBuffer ∧
    (-0.85 ≤ readDelayed ps.voices.delayBuffer
        (wrapAbove (wrapBelow (ps.voices.readPosition - pitchRatio))) ∧
      readDelayed ps.voices.delayBuffer
        (wrapAbove (wrapBelow (ps.voices.readPosition - pitchRatio))) ≤ 0.85) ∧
    jlimit (-0.85) 0.85 (readDelayed ps.voices.delayBuffer
        (wrapAbove (wrapBelow (ps.voices.readPosition - pitchRatio))))
      = readDelayed ps.voices.delayBuffer
        (wrapAbove (wrapBelow (ps.voices.readPosition - pitchRatio))) := by
  have hz : ∀ n : Nat, allWithin (-0.85 : α) 0.85 (List.replicate n 0) :=
    allWithin_replicate_zero (by norm_num) (by norm_num)
  have hr := readDelayed_within h (by norm_num) (by norm_num)
    (wrapAbove_nonneg (wrapBelow (ps.voices.readPosition - pitchRatio)) (wrapBelow_nonneg _))
  exact ⟨⟨hz _, hz _, hz _⟩,
    ⟨PitchShifter.runBlocks_cells tanh exp2 calls _ (hz _),
      PitchShifter.runBlocks_cells tanh exp2 calls _ (hz _),
      PitchShifter.runBlocks_cells tanh exp2 calls _ (hz _)⟩,
    PitchShifter.processBlock_cells tanh exp2 ps buffer pitchShiftSemitones mix feedback h,
    hr, jlimit_eq_self hr.1 hr.2⟩

/-- Witness for C18: the freshly prepared voice, whose cells are all zero, driven by a hot
block with feedback. -/
theorem delay_cells_bounded_witness :
    allWithin (-0.85) 0.85
      (PitchShifter.prepare (PitchShifter.new : PitchShifter ℚ) 44100 512).voices.delayBuffer ∧
    allWithin (-0.85) 0.85
      ((PitchShifter.prepare (PitchShifter.new : PitchShifter ℚ) 44100 512).processBlock tanhQ
        exp2Q [3, -2, 1 / 2] 12 (1 / 2) (1 / 2)).1.voices.delayBuffer :=
  have h : allWithin (-0.85) 0.85
      (PitchShifter.prepare (PitchShifter.new : PitchShifter ℚ) 44100
        512).voices.delayBuffer :=
    allWithin_replicate_zero (by norm_num) (by norm_num) _
  ⟨h, (delay_cells_bounded tanhQ exp2Q
    (PitchShifter.prepare (PitchShifter.new : PitchShifter ℚ) 44100 512) 44100 512 []
    [3, -2, 1 / 2] 12 (1 / 2) (1 / 2) 1 h).2.2.1⟩

end Claims

end Noctave
